import Mathlib

/-!
# The CSV output module of zmap-ja4tscan

A shallow embedding of `src/output_modules/module_csv_ja4tscan.c` and the
properties proved about it.

Conventions of the embedding.

* Text is a list of characters, one character per byte.  The NUL byte never
  occurs in it: a C string ends at its NUL, and the module writes its files
  only through `fprintf` conversions of C strings and numbers.
* The module's global variables and the part of the environment it touches
  (standard output, the files on disk) form one record, `World`, that every
  operation takes and returns.
* `log_fatal` ends the process; undefined behaviour of the C code (a NULL or
  uninitialised pointer handed to libc) has no result at all.  Both are values
  of `Fault`, and an operation returns `Except Fault World`.  Reading memory
  that was allocated and never assigned is counted as undefined in
  `csv_post_process`; `csv_post_process_reading` is the same function with
  that memory holding arbitrary records, for what the code does in such a run.
* `int` is 32 bits wide, `unsigned long` and `size_t` are 64 bits wide (LP64).
* Opening a file for writing succeeds, writes do not fail, and `malloc`
  succeeds for every request that is not larger than the address space.
* Diagnostics printed with `printf`, `perror` and `log_debug` are not kept.
-/

namespace CsvJa4t

/-- Text: the content of a C string (without its terminating NUL) or of a file. -/
abbrev Text := List Char

/-- The ways a call can end without returning: `fatal` is `log_fatal`, which
is declared in `lib/logger.h` and, by section 6 of the spec, terminates the
process with a logged message; `undefined` is undefined behaviour of the C
code. -/
inductive Fault
  | fatal
  | undefined
  deriving DecidableEq, Repr

/-- Modelled from the spec: `field_t` and the `FS_` tags are declared in
`fieldset.h`, which is not among the sources.  A field is its type tag together
with the member of the value union that the tag selects (section 3 of the
spec): `value.ptr` as a C string for `FS_STRING`, `value.num` as a 64-bit
unsigned number for `FS_UINT64` and `FS_BOOL`, the `len` bytes at `value.ptr`
for `FS_BINARY`.  `FS_OTHER` stands for every tag that is none of the five
named ones. -/
inductive field_t
  | FS_STRING (ptr : Text)
  | FS_UINT64 (num : Nat)
  | FS_BOOL (num : Nat)
  | FS_BINARY (ptr : List Nat)
  | FS_NULL
  | FS_OTHER (tag : Nat)
  deriving DecidableEq, Repr

/-- The stream a `FILE *` refers to: standard output or a file on disk. -/
inductive FILE
  | stdout
  | named (path : Text)
  deriving DecidableEq, Repr

/-- Modelled from the spec: `struct state_conf` is declared outside the
sources; these are the two members `csv_init` reads, the output path (NULL, the
sentinel `-` for standard output, or a file name) and the flag that suppresses
the header row (section 6 of the spec). -/
structure state_conf where
  output_filename : Option Text
  no_header_row : Bool

/-- The sorter's `Record`. -/
structure Record where
  saddr : Text
  ip_src_num : Nat
  restOfLine : Option Text
  deriving DecidableEq, Repr

/-- The globals of the module (`file`, `csv_filename`, `global_field_names`,
`global_field_count`, `numRecords`) and the environment: what has been written
to standard output through `file`, and the content of each file on disk.  A
slot of `global_field_names` that was allocated and never assigned is `none`. -/
structure World where
  file : Option FILE
  csv_filename : Option Text
  global_field_names : List (Option Text)
  global_field_count : Int
  numRecords : Int
  console : Text
  disk : Text → Option Text

/-- The state at program start: every global at its static initialiser. -/
def World.start (disk : Text → Option Text) : World :=
  { file := none, csv_filename := none, global_field_names := [],
    global_field_count := 0, numRecords := 0, console := [], disk := disk }

/-! ## libc -/

/-- Writing text to a stream appends it.  A stream whose file is no longer on
disk has nowhere to show what is written to it. -/
def fprintf (f : FILE) (s : Text) (w : World) : World :=
  match f with
  | .stdout => { w with console := w.console ++ s }
  | .named p =>
    match w.disk p with
    | some content => { w with disk := Function.update w.disk p (some (content ++ s)) }
    | none => w

/-- The conversion `%lu` (and `PRIu64`): unsigned decimal. -/
def fmt_lu (n : Nat) : Text := Nat.toDigits 10 n

/-- The conversion `%d` (and `PRIi32`): signed decimal. -/
def fmt_d (i : Int) : Text :=
  if i < 0 then '-' :: Nat.toDigits 10 i.natAbs else Nat.toDigits 10 i.natAbs

/-- The conversion `%02x`: lowercase hexadecimal, zero-padded to two characters. -/
def fmt_02x (n : Nat) : Text :=
  List.replicate (2 - (Nat.toDigits 16 n).length) '0' ++ Nat.toDigits 16 n

/-- The cast `(int)` of a 64-bit unsigned value: the low 32 bits, read as
two's complement. -/
def to_int (n : Nat) : Int :=
  if n % 2 ^ 32 < 2 ^ 31 then ((n % 2 ^ 32 : Nat) : Int) else ((n % 2 ^ 32 : Nat) : Int) - 2 ^ 32

/-- An `int` after an increment: two's complement wrap-around at 32 bits. -/
def wrap_int (i : Int) : Int := (i + 2 ^ 31) % 2 ^ 32 - 2 ^ 31

/-- The characters `getline` or `fgets` take from a stream with room for `n`
characters: up to and including the first newline.  Returns them and the rest
of the stream. -/
def read_chars : Nat → Text → Text × Text
  | 0, s => ([], s)
  | _ + 1, [] => ([], [])
  | n + 1, c :: s =>
    if c = '\n' then ([c], s) else ((c :: (read_chars n s).1), (read_chars n s).2)

/-- On a stream: `getline` reads one whole line, of any length; `none` is the
return value -1 at end of file. -/
def getline (fp : Text) : Option (Text × Text) :=
  match fp with
  | [] => none
  | _ => some (read_chars fp.length fp)

/-- On a stream: `fgets(buf, size, fp)` reads at most `size - 1` characters of
one line; `none` is the NULL returned at end of file. -/
def fgets (size : Nat) (fp : Text) : Option (Text × Text) :=
  match fp with
  | [] => none
  | _ => some (read_chars (size - 1) fp)

/-- One call of `strtok` on the string its saved pointer is at: the token (or
`none` for NULL) and the string the saved pointer is left at. -/
def strtok (delim : List Char) (s : Text) : Option Text × Text :=
  match s.dropWhile (fun c => delim.contains c) with
  | [] => (none, [])
  | c :: t =>
    (some ((c :: t).takeWhile (fun x => !delim.contains x)),
     ((c :: t).dropWhile (fun x => !delim.contains x)).drop 1)

/-- The `isspace` of the C locale. -/
def isspace (c : Char) : Bool :=
  c = ' ' || c = '\t' || c = '\n' || c = '\x0b' || c = '\x0c' || c = '\r'

/-- The value of a run of decimal digits. -/
def digits_value (ds : Text) : Nat :=
  ds.foldl (fun acc c => acc * 10 + (c.toNat - '0'.toNat)) 0

/-- The sign that `strtoul` accepts before the digits: whether it is a minus
sign, and the string behind it. -/
def strtoul_sign (s : Text) : Bool × Text :=
  match s with
  | [] => (false, [])
  | c :: t => if c = '-' then (true, t) else if c = '+' then (false, t) else (false, c :: t)

/-- The call `strtoul(s, NULL, 10)`: white space, an optional sign, then
decimal digits; no digits give 0, a value above `ULONG_MAX` gives `ULONG_MAX`,
a minus sign negates modulo 2^64. -/
def strtoul (s : Text) : Nat :=
  let p := strtoul_sign (s.dropWhile isspace)
  let v := digits_value (p.2.takeWhile Char.isDigit)
  if 2 ^ 64 ≤ v then 2 ^ 64 - 1
  else if p.1 then (2 ^ 64 - v) % 2 ^ 64
  else v

/-! ## The module -/

/-- The comparator handed to `qsort`. -/
def compare_records (a b : Record) : Int :=
  (if a.ip_src_num > b.ip_src_num then 1 else 0) -
    (if a.ip_src_num < b.ip_src_num then 1 else 0)

/-- The call `qsort(records, n, sizeof(Record), compare_records)` on an array
whose `n` elements are all initialised, as an insertion sort.  C leaves the
order of elements that compare equal open; nothing below depends on it. -/
def qsort (records : List Record) : List Record :=
  records.insertionSort (fun a b => compare_records a b ≤ 0)

/-- Modelled from the spec: `check_and_log_file_error` is declared in
`lib/logger.h`, which is not among the sources.  The spec counts no write
failure among the fatal conditions (section 7), and the writes of this
embedding do not fail, so the check passes. -/
def check_and_log_file_error (_f : FILE) (w : World) : Except Fault World :=
  .ok w

/-- The byte loop of `hex_encode`, lines 184-186. -/
def hex_encode_loop (f : FILE) : List Nat → World → World
  | [], w => w
  | b :: rest, w => hex_encode_loop f rest (fprintf f (fmt_02x (b % 256)) w)

/-- The function `hex_encode(f, readbuf, len)`, with `readbuf` the `len` bytes. -/
def hex_encode (f : FILE) (readbuf : List Nat) (w : World) : Except Fault World :=
  check_and_log_file_error f (hex_encode_loop f readbuf w)

/-- The chain of tests on `f->type` in the loop of `csv_process`, lines 201-217. -/
def csv_process_field (file : FILE) (f : field_t) (w : World) : Except Fault World :=
  match f with
  | .FS_STRING ptr =>
    if ',' ∈ ptr then .ok (fprintf file ('"' :: ptr ++ ['"']) w)
    else .ok (fprintf file ptr w)
  | .FS_UINT64 num => .ok (fprintf file (fmt_lu (num % 2 ^ 64)) w)
  | .FS_BOOL num => .ok (fprintf file (fmt_d (to_int num)) w)
  | .FS_BINARY ptr => hex_encode file ptr w
  | .FS_NULL => .ok w
  | .FS_OTHER _ => .error .fatal

/-- The loop of `csv_process` from index `i` on, lines 196-218. -/
def csv_process_loop (file : FILE) : Nat → List field_t → World → Except Fault World
  | _, [], w => .ok w
  | i, f :: rest, w =>
    match csv_process_field file f (if i ≠ 0 then fprintf file [','] w else w) with
    | .ok w1 => csv_process_loop file (i + 1) rest w1
    | .error e => .error e

/-- The function `csv_process(fs)`, with `fs` the `fs->len` fields. -/
def csv_process (fs : List field_t) (w : World) : Except Fault World :=
  match w.file with
  | none => .ok w
  | some file =>
    match csv_process_loop file 0 fs { w with numRecords := wrap_int (w.numRecords + 1) } with
    | .ok w1 => check_and_log_file_error file (fprintf file ['\n'] w1)
    | .error e => .error e

/-- The header loop of `csv_init` from index `i` on, lines 157-163. -/
def csv_init_loop (file : FILE) : Nat → List Text → World → World
  | _, [], w => w
  | i, name :: rest, w =>
    let w1 := fprintf file name (if i ≠ 0 then fprintf file [','] w else w)
    csv_init_loop file (i + 1) rest
      { w1 with global_field_names := w1.global_field_names.set i (some name) }

/-- The stream `csv_init` selects, lines 139-154; a named file is created empty. -/
def csv_init_open (conf : state_conf) (w : World) : World :=
  match conf.output_filename with
  | some name =>
    if name = ['-'] then { w with csv_filename := some name, file := some .stdout }
    else { w with csv_filename := some name, file := some (.named name),
                  disk := Function.update w.disk name (some []) }
  | none => { w with file := some .stdout }

/-- The count and the freshly allocated name array of `csv_init`, lines 136-137. -/
def csv_init_alloc (fields : List Text) (w : World) : World :=
  { w with global_field_count := fields.length,
           global_field_names := List.replicate fields.length none }

/-- The function `csv_init(conf, fields, fieldlens)`, with `fields` the
`fieldlens` names. -/
def csv_init (conf : state_conf) (fields : List Text) (w : World) : Except Fault World :=
  match (csv_init_open conf (csv_init_alloc fields w)).file with
  | none => .ok (csv_init_open conf (csv_init_alloc fields w))
  | some file =>
    check_and_log_file_error file
      (if conf.no_header_row then csv_init_open conf (csv_init_alloc fields w)
       else fprintf file ['\n']
        (csv_init_loop file 0 fields (csv_init_open conf (csv_init_alloc fields w))))

/-- The statements that read one line into a record, lines 86-97.  A NULL
token handed to `strdup` or `strtoul` is undefined behaviour. -/
def parse_record (recordLine : Text) : Except Fault Record :=
  match strtok [','] recordLine with
  | (none, _) => .error .undefined
  | (some saddr, s1) =>
    match strtok [','] s1 with
    | (none, _) => .error .undefined
    | (some tok, s2) =>
      .ok { saddr := saddr, ip_src_num := strtoul tok, restOfLine := (strtok ['\n'] s2).1 }

/-- The parsing loop, lines 84-99, with `n` the records still to fill
(`numRecords - currentRecord`) and `fp` the unread part of the file. -/
def parse_loop : Nat → Text → Except Fault (List Record)
  | 0, _ => .ok []
  | n + 1, fp =>
    match fgets 1024 fp with
    | none => .ok []
    | some (recordLine, fp1) =>
      match parse_record recordLine with
      | .error e => .error e
      | .ok r =>
        match parse_loop n fp1 with
        | .error e => .error e
        | .ok rs => .ok (r :: rs)

/-- The text written for one record, lines 114-119. -/
def write_record (r : Record) : Text :=
  r.saddr ++ [','] ++ fmt_lu r.ip_src_num ++
    (match r.restOfLine with
     | some rest => ',' :: rest
     | none => []) ++ ['\n']

/-- The name of the sorted file. -/
def output_processed : Text := "output_processed.csv".toList

/-- Whether the first `n` slots of the name array exist and were assigned:
the loop of lines 54-57 hands each of them to `printf`. -/
def names_readable (names : List (Option Text)) (n : Nat) : Bool :=
  (List.range n).all (fun i => match names.get? i with
    | some (some _) => true
    | _ => false)

/-- Sorting and writing, lines 104-120, on an array whose elements are all
filled: the sorted file is created and receives the first line of the input,
then one line for each element of the sorted array. -/
def write_sorted (line : Text) (records : List Record) (w : World) : World :=
  { w with disk := (Function.update w.disk output_processed
      (some (line ++ ((qsort records).map write_record).flatten))) }

/-- The function `csv_post_process()`.  The array `records` has `numRecords`
elements, of which the parsing loop fills the first `currentRecord`; sorting
and writing all `numRecords` of them is undefined when some were not filled.
A negative `numRecords` converts to a size above the address space, the
allocation fails, and the function returns at line 78; a request of zero
bytes gets a pointer, as with glibc. -/
def csv_post_process (w : World) : Except Fault World :=
  if !names_readable w.global_field_names w.global_field_count.toNat then .error .undefined
  else
    match w.csv_filename.bind w.disk with
    | none => .error .fatal
    | some content =>
      match getline content with
      | none => .error .fatal
      | some (line, fp) =>
        if w.numRecords < 0 then .ok w
        else
          match parse_loop w.numRecords.toNat fp with
          | .error e => .error e
          | .ok records =>
            if records.length < w.numRecords.toNat then .error .undefined
            else .ok (write_sorted line records w)

/-- The function `csv_close(c, s, r)`: flushing and closing leave the content
of the file as it is. -/
def csv_close (w : World) : Except Fault World :=
  csv_post_process w

/-- The calls `csv_process` on each record of a list, in order. -/
def csv_process_all : List (List field_t) → World → Except Fault World
  | [], w => .ok w
  | fs :: rest, w =>
    match csv_process fs w with
    | .ok w1 => csv_process_all rest w1
    | .error e => .error e

/-! ## Notions used to state the properties -/

/-- Whether the type tag is one of STRING, UINT64, BOOL, BINARY, NULL. -/
def field_t.known : field_t → Bool
  | .FS_OTHER _ => false
  | _ => true

/-- The sixteen lowercase hexadecimal digits. -/
def hex_alphabet : Text := "0123456789abcdef".toList

/-- The hexadecimal digit of a nibble. -/
def hex_digit (n : Nat) : Char := hex_alphabet.getD n '?'

/-- All the characters that `hex_encode` prints for a byte sequence. -/
def hex_text (readbuf : List Nat) : Text :=
  (readbuf.map (fun b => fmt_02x (b % 256))).flatten

/-- The value of a hexadecimal digit, of either case. -/
def hex_value (c : Char) : Option Nat :=
  if '0' ≤ c ∧ c ≤ '9' then some (c.toNat - '0'.toNat)
  else if 'a' ≤ c ∧ c ≤ 'f' then some (c.toNat - 'a'.toNat + 10)
  else if 'A' ≤ c ∧ c ≤ 'F' then some (c.toNat - 'A'.toNat + 10)
  else none

/-- The standard hexadecimal decoder: two digits a byte, high nibble first. -/
def hex_decode : Text → Option (List Nat)
  | [] => some []
  | [_] => none
  | hi :: lo :: rest =>
    match hex_value hi, hex_value lo, hex_decode rest with
    | some a, some b, some bytes => some ((16 * a + b) :: bytes)
    | _, _, _ => none

/-- All the characters that the tests of `csv_process` print for one field of
a known type. -/
def field_text : field_t → Text
  | .FS_STRING ptr => if ',' ∈ ptr then '"' :: ptr ++ ['"'] else ptr
  | .FS_UINT64 num => fmt_lu (num % 2 ^ 64)
  | .FS_BOOL num => fmt_d (to_int num)
  | .FS_BINARY ptr => hex_text ptr
  | .FS_NULL => []
  | .FS_OTHER _ => []

/-- One data line: the texts of the fields joined by commas, then a newline. -/
def row_text (fs : List field_t) : Text :=
  [','].intercalate (fs.map field_text) ++ ['\n']

/-- The header row: the names joined by commas, then a newline. -/
def header_text (fields : List Text) : Text :=
  [','].intercalate fields ++ ['\n']

/-- The text held by the destination that `file` refers to. -/
def destination_text (w : World) : Text :=
  match w.file with
  | some .stdout => w.console
  | some (.named p) => (w.disk p).getD []
  | none => []

/-- The name array after the header loop has run from index `i` on. -/
def set_names : Nat → List Text → List (Option Text) → List (Option Text)
  | _, [], names => names
  | i, name :: rest, names => set_names (i + 1) rest (names.set i (some name))

/-- Whether the file behind a named stream is on disk. -/
def destination_present (w : World) : Prop :=
  ∀ p, w.file = some (.named p) → ∃ content, w.disk p = some content

/-- Whether a record has fields of known types only, with no newline inside a
STRING value. -/
def record_plain (fs : List field_t) : Prop :=
  (∀ f ∈ fs, f.known = true) ∧ ∀ f ∈ fs, ∀ ptr, f = .FS_STRING ptr → '\n' ∉ ptr

/-- The header row `csv_init` writes under a configuration. -/
def header_of (conf : state_conf) (fields : List Text) : Text :=
  if conf.no_header_row then [] else header_text fields

/-- The stream `csv_init` selects under a configuration. -/
def csv_init_file (conf : state_conf) : FILE :=
  match conf.output_filename with
  | some name => if name = ['-'] then .stdout else .named name
  | none => .stdout

/-- The record counter after `k` calls of `csv_process`. -/
def count_up (k : Nat) (n : Int) : Int :=
  (fun x => wrap_int (x + 1))^[k] n

/-- A data row as the sorter expects it: a first column, a run of characters
as second column, and, when a comma follows the second column, the rest of the
line behind that comma. -/
structure DataRow where
  col1 : Text
  digits : Text
  rest : Option Text
  deriving DecidableEq, Repr

/-- The line of a data row in the file, newline included. -/
def DataRow.line (r : DataRow) : Text :=
  r.col1 ++ ',' :: r.digits ++
    (match r.rest with
     | some t => ',' :: t
     | none => []) ++ ['\n']

/-- A data row the sorter reads back whole: the line is shorter than the
buffer of 1024 characters, the first column is not empty and holds neither
comma nor newline, the second column is a decimal numeral below 2^64, and the
rest of the line holds no newline. -/
def DataRow.well_formed (r : DataRow) : Prop :=
  r.line.length < 1024 ∧ r.col1 ≠ [] ∧ ',' ∉ r.col1 ∧ '\n' ∉ r.col1 ∧
  r.digits ≠ [] ∧ (∀ c ∈ r.digits, c.isDigit = true) ∧ digits_value r.digits < 2 ^ 64 ∧
  ∀ t ∈ r.rest, '\n' ∉ t

instance (r : DataRow) : Decidable r.well_formed := by
  unfold DataRow.well_formed
  infer_instance

/-- The state in which `csv_close` finds the module when the file `name`
holds `content`, `n` records were counted and the names `fields` were stored. -/
def World.closing (name content : Text) (n : Int) (fields : List Text) : World :=
  { file := some (.named name), csv_filename := some name,
    global_field_names := fields.map some, global_field_count := fields.length,
    numRecords := n, console := [],
    disk := fun q => if q = name then some content else none }

/-- The record the sorter makes of a well-formed data row. -/
def DataRow.record (r : DataRow) : Record :=
  { saddr := r.col1, ip_src_num := digits_value r.digits,
    restOfLine := match r.rest with
      | some [] => none
      | some (c :: t) => some (c :: t)
      | none => none }

/-- The record the sorter makes of a line, when it makes one. -/
def record_of_line (recordLine : Text) : Record :=
  match parse_record recordLine with
  | .ok r => r
  | .error _ => { saddr := [], ip_src_num := 0, restOfLine := none }

/-- A line, given without its newline, that the sorter reads whole and in
which it finds two tokens: with its newline it is shorter than the buffer of
1024 characters, it holds no newline, it does not begin with a comma and it
holds a comma, so that a first column that is not empty is followed by more. -/
def line_readable (body : Text) : Prop :=
  body.length + 1 < 1024 ∧ '\n' ∉ body ∧ body.head? ≠ some ',' ∧ ',' ∈ body

instance (body : Text) : Decidable (line_readable body) := by
  unfold line_readable
  infer_instance

/-- The data part of a file: each line followed by its newline. -/
def lines_text (bodies : List Text) : Text :=
  (bodies.map (fun b => b ++ ['\n'])).flatten

/-- A record whose line the sorter can read: fields of known types without
newline, at least two of them, the first with a text that is not empty, and a
line shorter than 1024 characters with its newline. -/
def record_readable (fs : List field_t) : Prop :=
  record_plain fs ∧ (row_text fs).length < 1024 ∧ 2 ≤ fs.length ∧
  ∀ f ∈ fs.head?, field_text f ≠ []

/-- Whether a field is of a known type and, when it is a STRING, holds no
newline. -/
def field_t.plain : field_t → Bool
  | .FS_STRING ptr => !ptr.contains '\n'
  | .FS_OTHER _ => false
  | _ => true

/-- The function `csv_post_process()` on memory in which what was allocated
and never assigned can be read as text: the name slots that `csv_init` left
unassigned print as some text, which like every diagnostic is not kept, and
the elements of `records` that the parsing loop did not fill hold the records
`unfilled`, in order.  The sort and the write loop, lines 104-120, run over
all `numRecords` elements: the parsed ones and as many of `unfilled` as the
array has room left for. -/
def csv_post_process_reading (unfilled : List Record) (w : World) : Except Fault World :=
  match w.csv_filename.bind w.disk with
  | none => .error .fatal
  | some content =>
    match getline content with
    | none => .error .fatal
    | some (line, fp) =>
      if w.numRecords < 0 then .ok w
      else
        match parse_loop w.numRecords.toNat fp with
        | .error e => .error e
        | .ok records =>
          if records.length + unfilled.length < w.numRecords.toNat then .error .undefined
          else .ok (write_sorted line
            (records ++ unfilled.take (w.numRecords.toNat - records.length)) w)

/-! ## Writing to a stream -/

theorem fprintf_nil (f : FILE) (w : World) : fprintf f [] w = w := by
  cases f with
  | stdout => simp [fprintf]
  | named p =>
    simp only [fprintf]
    split
    · rename_i c h
      have : Function.update w.disk p (some (c ++ [])) = w.disk := by
        rw [List.append_nil, ← h, Function.update_eq_self]
      rw [this]
    · rfl

theorem fprintf_fprintf (f : FILE) (a b : Text) (w : World) :
    fprintf f b (fprintf f a w) = fprintf f (a ++ b) w := by
  cases f with
  | stdout => simp [fprintf]
  | named p =>
    simp only [fprintf]
    cases h : w.disk p with
    | none => simp [h]
    | some c => simp [h]

theorem fprintf_numRecords (f : FILE) (s : Text) (w : World) :
    (fprintf f s w).numRecords = w.numRecords := by
  cases f with
  | stdout => rfl
  | named p => simp only [fprintf]; split <;> rfl

theorem fprintf_file (f : FILE) (s : Text) (w : World) :
    (fprintf f s w).file = w.file := by
  cases f with
  | stdout => rfl
  | named p => simp only [fprintf]; split <;> rfl

/-! ## The encoders -/

theorem hex_encode_loop_eq (f : FILE) (readbuf : List Nat) (w : World) :
    hex_encode_loop f readbuf w = fprintf f (hex_text readbuf) w := by
  induction readbuf generalizing w with
  | nil => simp [hex_encode_loop, hex_text, fprintf_nil]
  | cons b rest ih =>
    simp only [hex_encode_loop, ih, fprintf_fprintf, hex_text, List.map_cons, List.flatten_cons]

theorem csv_process_field_known (file : FILE) (f : field_t) (w : World) (hk : f.known = true) :
    csv_process_field file f w = .ok (fprintf file (field_text f) w) := by
  cases f with
  | FS_STRING ptr =>
    by_cases hc : ',' ∈ ptr <;> simp [csv_process_field, field_text, hc]
  | FS_UINT64 num => rfl
  | FS_BOOL num => rfl
  | FS_BINARY ptr =>
    simp [csv_process_field, field_text, hex_encode, check_and_log_file_error,
      hex_encode_loop_eq]
  | FS_NULL => simp [csv_process_field, field_text, fprintf_nil]
  | FS_OTHER tag => simp [field_t.known] at hk

theorem csv_process_field_unknown (file : FILE) (f : field_t) (w : World)
    (hk : f.known = false) : csv_process_field file f w = .error .fatal := by
  cases f <;> first | rfl | simp [field_t.known] at hk

/-- Every field after the first is written behind a comma. -/
theorem csv_process_loop_succ (file : FILE) (i : Nat) (fs : List field_t) (w : World)
    (hk : ∀ f ∈ fs, f.known = true) :
    csv_process_loop file (i + 1) fs w
      = .ok (fprintf file ((fs.map (fun f => ',' :: field_text f)).flatten) w) := by
  induction fs generalizing i w with
  | nil => simp [csv_process_loop, fprintf_nil]
  | cons f rest ih =>
    have hf : f.known = true := hk f (List.mem_cons_self _ _)
    have hr : ∀ g ∈ rest, g.known = true := fun g hg => hk g (List.mem_cons_of_mem _ hg)
    simp only [csv_process_loop, csv_process_field_known _ _ _ hf, ih _ _ hr,
      fprintf_fprintf, List.map_cons, List.flatten_cons]
    simp [fprintf_fprintf]

theorem intercalate_cons_eq (sep a : Text) (l : List Text) :
    sep.intercalate (a :: l) = a ++ (l.map (fun x => sep ++ x)).flatten := by
  induction l generalizing a with
  | nil => simp [List.intercalate]
  | cons b rest ih =>
    have h := ih b
    simp only [List.intercalate] at h ⊢
    simp only [List.intersperse, List.flatten_cons, List.map_cons] at h ⊢
    rw [h]
    simp [List.append_assoc]

theorem csv_process_loop_zero (file : FILE) (fs : List field_t) (w : World)
    (hk : ∀ f ∈ fs, f.known = true) :
    csv_process_loop file 0 fs w
      = .ok (fprintf file ([','].intercalate (fs.map field_text)) w) := by
  cases fs with
  | nil => simp [csv_process_loop, List.intercalate, fprintf_nil]
  | cons f rest =>
    have hf : f.known = true := hk f (List.mem_cons_self _ _)
    have hr : ∀ g ∈ rest, g.known = true := fun g hg => hk g (List.mem_cons_of_mem _ hg)
    simp only [csv_process_loop, csv_process_field_known _ _ _ hf,
      csv_process_loop_succ _ _ _ _ hr, fprintf_fprintf, List.map_cons, intercalate_cons_eq]
    simp [List.map_map, Function.comp_def]

theorem csv_process_loop_fatal (file : FILE) (i : Nat) (fs : List field_t) (w : World)
    (hu : ∃ f ∈ fs, f.known = false) :
    csv_process_loop file i fs w = .error .fatal := by
  induction fs generalizing i w with
  | nil => simp at hu
  | cons f rest ih =>
    cases hf : f.known with
    | false => simp [csv_process_loop, csv_process_field_unknown _ _ _ hf]
    | true =>
      obtain ⟨g, hg, hgk⟩ := hu
      have hr : ∃ g ∈ rest, g.known = false := by
        rcases List.mem_cons.mp hg with h | h
        · subst h; simp [hf] at hgk
        · exact ⟨g, h, hgk⟩
      simp only [csv_process_loop, csv_process_field_known _ _ _ hf, ih _ _ hr]

theorem csv_process_known (fs : List field_t) (w : World) (file : FILE)
    (hfile : w.file = some file) (hk : ∀ f ∈ fs, f.known = true) :
    csv_process fs w
      = .ok (fprintf file (row_text fs) { w with numRecords := wrap_int (w.numRecords + 1) }) := by
  simp only [csv_process, hfile, csv_process_loop_zero _ _ _ hk, check_and_log_file_error,
    fprintf_fprintf, row_text]

/-! ## Numerals -/

theorem toDigitsCore_eq_digits (b : Nat) (hb : 2 ≤ b) (fuel : Nat) :
    ∀ (n : Nat) (ds : List Char), 0 < n → n < fuel →
      Nat.toDigitsCore b fuel n ds = ((Nat.digits b n).reverse.map Nat.digitChar) ++ ds := by
  induction fuel with
  | zero => intro n ds _ h; omega
  | succ fuel ih =>
    intro n ds hn hlt
    have hdig : Nat.digits b n = (n % b) :: Nat.digits b (n / b) :=
      Nat.digits_def' (by omega) hn
    by_cases h0 : n / b = 0
    · simp [Nat.toDigitsCore, h0, hdig]
    · have hdiv : n / b < n := Nat.div_lt_self hn (by omega)
      have := ih (n / b) (Nat.digitChar (n % b) :: ds) (Nat.pos_of_ne_zero h0) (by omega)
      simp [Nat.toDigitsCore, h0, hdig, this]

theorem toDigits_eq_digits (b : Nat) (hb : 2 ≤ b) (n : Nat) (hn : 0 < n) :
    Nat.toDigits b n = (Nat.digits b n).reverse.map Nat.digitChar := by
  simp [Nat.toDigits, toDigitsCore_eq_digits b hb (n + 1) n [] hn (by omega)]

theorem digitChar_eq_zero_or_one (d : Nat) (hd : d < 10) :
    (Nat.digitChar d = '0' ↔ d = 0) ∧ (Nat.digitChar d = '1' ↔ d = 1) := by
  interval_cases d <;> decide

theorem toDigits_single (m : Nat) (c : Char) (h : Nat.toDigits 10 m = [c]) :
    m < 10 ∧ c = Nat.digitChar m := by
  rcases Nat.eq_zero_or_pos m with rfl | hm
  · simp [Nat.toDigits, Nat.toDigitsCore] at h
    subst h; decide
  · rw [toDigits_eq_digits 10 (by norm_num) m hm] at h
    have hlen : (Nat.digits 10 m).length = 1 := by
      have := congrArg List.length h
      simpa using this
    obtain ⟨d, hd⟩ := List.length_eq_one.mp hlen
    have hm' : m = d := by
      have := Nat.ofDigits_digits 10 m
      rw [hd] at this
      simpa using this.symm
    have hlt : d < 10 := Nat.digits_lt_base (by norm_num) (by rw [hd]; simp)
    rw [hd] at h
    simp at h
    subst hm'
    exact ⟨hlt, h.symm⟩

set_option maxRecDepth 100000 in
theorem fmt_02x_byte : ∀ b, b < 256 →
    fmt_02x b = [hex_digit (b / 16), hex_digit (b % 16)] := by
  decide

theorem hex_value_digit : ∀ n, n < 16 → hex_value (hex_digit n) = some n := by
  decide

theorem hex_text_cons (b : Nat) (rest : List Nat) (hb : b < 256) :
    hex_text (b :: rest) = hex_digit (b / 16) :: hex_digit (b % 16) :: hex_text rest := by
  simp [hex_text, Nat.mod_eq_of_lt hb, fmt_02x_byte b hb]

theorem hex_text_length (readbuf : List Nat) (hb : ∀ b ∈ readbuf, b < 256) :
    (hex_text readbuf).length = 2 * readbuf.length := by
  induction readbuf with
  | nil => rfl
  | cons b rest ih =>
    rw [hex_text_cons b rest (hb b (List.mem_cons_self _ _)), List.length_cons, List.length_cons,
      List.length_cons, ih (fun x hx => hb x (List.mem_cons_of_mem _ hx))]
    omega

theorem hex_digit_mem : ∀ n, n < 16 → hex_digit n ∈ hex_alphabet := by
  decide

theorem hex_text_alphabet (readbuf : List Nat) (hb : ∀ b ∈ readbuf, b < 256) :
    ∀ c ∈ hex_text readbuf, c ∈ hex_alphabet := by
  induction readbuf with
  | nil => intro c hc; simp [hex_text] at hc
  | cons b rest ih =>
    have hlt : b < 256 := hb b (List.mem_cons_self _ _)
    intro c hc
    rw [hex_text_cons b rest hlt] at hc
    rcases List.mem_cons.mp hc with h | h
    · subst h; exact hex_digit_mem _ (by omega)
    · rcases List.mem_cons.mp h with h | h
      · subst h; exact hex_digit_mem _ (Nat.mod_lt _ (by norm_num))
      · exact ih (fun x hx => hb x (List.mem_cons_of_mem _ hx)) c h

theorem hex_text_nibbles (readbuf : List Nat) (hb : ∀ b ∈ readbuf, b < 256) :
    ∀ (i : Nat) (h : i < readbuf.length),
      (hex_text readbuf)[2 * i]? = some (hex_digit (readbuf[i] / 16)) ∧
      (hex_text readbuf)[2 * i + 1]? = some (hex_digit (readbuf[i] % 16)) := by
  induction readbuf with
  | nil => intro i h; simp at h
  | cons b rest ih =>
    have hlt : b < 256 := hb b (List.mem_cons_self _ _)
    intro i h
    rw [hex_text_cons b rest hlt]
    cases i with
    | zero => simp
    | succ j =>
      have hj : j < rest.length := by simpa using h
      have := ih (fun x hx => hb x (List.mem_cons_of_mem _ hx)) j hj
      have e1 : 2 * (j + 1) = (2 * j + 1) + 1 := by ring
      rw [e1]
      simpa using this

theorem hex_decode_text (readbuf : List Nat) (hb : ∀ b ∈ readbuf, b < 256) :
    hex_decode (hex_text readbuf) = some readbuf := by
  induction readbuf with
  | nil => rfl
  | cons b rest ih =>
    have hlt : b < 256 := hb b (List.mem_cons_self _ _)
    rw [hex_text_cons b rest hlt, hex_decode, hex_value_digit _ (by omega),
      hex_value_digit _ (Nat.mod_lt _ (by norm_num)),
      ih (fun x hx => hb x (List.mem_cons_of_mem _ hx))]
    simp only [Option.some.injEq, List.cons.injEq, and_true]
    omega

theorem to_int_zero_one (n : Nat) : (to_int n = 0 ∨ to_int n = 1) ↔ n % 2 ^ 32 ≤ 1 := by
  unfold to_int
  split <;> omega

theorem fmt_d_zero_one (i : Int) : (fmt_d i = ['0'] ∨ fmt_d i = ['1']) ↔ (i = 0 ∨ i = 1) := by
  constructor
  · intro h
    unfold fmt_d at h
    split at h
    · rcases h with h | h <;> simp at h
    · rename_i hneg
      rcases h with h | h
      · obtain ⟨hlt, hc⟩ := toDigits_single _ _ h
        have := ((digitChar_eq_zero_or_one _ hlt).1).mp hc.symm
        left; omega
      · obtain ⟨hlt, hc⟩ := toDigits_single _ _ h
        have := ((digitChar_eq_zero_or_one _ hlt).2).mp hc.symm
        right; omega
  · rintro (rfl | rfl)
    · left; rfl
    · right; rfl

/-! ## The claims on `csv_process` and `hex_encode` -/

/-- C1: on an open destination, for a record of any number of fields whose
type tags are all known, `csv_process` succeeds and appends exactly the texts
of the fields, in field order, joined by single commas, then one newline; the
text of a field is what the tests on the tag write for that field alone. -/
theorem csv_process_appends_row (fs : List field_t) (w : World) (file : FILE)
    (hfile : w.file = some file) (hk : ∀ f ∈ fs, f.known = true) :
    csv_process fs w
      = .ok (fprintf file ([','].intercalate (fs.map field_text) ++ ['\n'])
          { w with numRecords := wrap_int (w.numRecords + 1) }) ∧
    ∀ f ∈ fs, ∀ w1 : World,
      csv_process_field file f w1 = .ok (fprintf file (field_text f) w1) :=
  ⟨csv_process_known fs w file hfile hk,
   fun f hf w1 => csv_process_field_known file f w1 (hk f hf)⟩

/-- C1, at a record with a STRING, a NULL and a UINT64 field written to
standard output. -/
theorem csv_process_appends_row_witness :
    (∀ f ∈ [field_t.FS_STRING ['a'], field_t.FS_NULL, field_t.FS_UINT64 7], f.known = true) ∧
    (csv_process [field_t.FS_STRING ['a'], field_t.FS_NULL, field_t.FS_UINT64 7]
        { World.start (fun _ => none) with file := some FILE.stdout }).map World.console
      = .ok ['a', ',', ',', '7', '\n'] := by
  refine ⟨by decide, ?_⟩
  rw [(csv_process_appends_row [field_t.FS_STRING ['a'], field_t.FS_NULL, field_t.FS_UINT64 7]
    { World.start (fun _ => none) with file := some FILE.stdout } FILE.stdout rfl (by decide)).1]
  rfl

/-- C2: a STRING value without a comma is written as it is; a STRING value
with a comma is written between two double quotes, unchanged inside them; the
value `a,b` is written as `"a,b"`. -/
theorem csv_process_string (ptr : Text) (file : FILE) (w : World) :
    (',' ∉ ptr → csv_process_field file (.FS_STRING ptr) w = .ok (fprintf file ptr w)) ∧
    (',' ∈ ptr →
      csv_process_field file (.FS_STRING ptr) w = .ok (fprintf file ('"' :: ptr ++ ['"']) w)) ∧
    csv_process_field file (.FS_STRING ['a', ',', 'b']) w
      = .ok (fprintf file ['"', 'a', ',', 'b', '"'] w) := by
  refine ⟨fun h => ?_, fun h => ?_, rfl⟩
  · simp [csv_process_field, h]
  · simp [csv_process_field, h]

/-- C3: for a sequence of N bytes, `hex_encode` writes 2N characters, all of
them among `0-9a-f`; characters 2i and 2i+1 are the high and the low nibble of
byte i; the standard hexadecimal decoder gives the bytes back. -/
theorem hex_encode_decode (f : FILE) (readbuf : List Nat) (w : World)
    (hb : ∀ b ∈ readbuf, b < 256) :
    hex_encode f readbuf w = .ok (fprintf f (hex_text readbuf) w) ∧
    (hex_text readbuf).length = 2 * readbuf.length ∧
    (∀ c ∈ hex_text readbuf, c ∈ hex_alphabet) ∧
    (∀ (i : Nat) (h : i < readbuf.length),
      (hex_text readbuf)[2 * i]? = some (hex_digit (readbuf[i] / 16)) ∧
      (hex_text readbuf)[2 * i + 1]? = some (hex_digit (readbuf[i] % 16))) ∧
    hex_decode (hex_text readbuf) = some readbuf :=
  ⟨by simp [hex_encode, check_and_log_file_error, hex_encode_loop_eq],
   hex_text_length readbuf hb, hex_text_alphabet readbuf hb, hex_text_nibbles readbuf hb,
   hex_decode_text readbuf hb⟩

/-- C3, at the bytes 0, 171, 255 and at the empty sequence. -/
theorem hex_encode_decode_witness :
    (∀ b ∈ [0, 171, 255], b < 256) ∧
    hex_text [0, 171, 255] = ['0', '0', 'a', 'b', 'f', 'f'] ∧
    hex_decode (hex_text [0, 171, 255]) = some [0, 171, 255] ∧
    hex_decode (hex_text []) = some [] :=
  ⟨by decide, by decide,
   (hex_encode_decode FILE.stdout [0, 171, 255] (World.start (fun _ => none)) (by decide)).2.2.2.2,
   (hex_encode_decode FILE.stdout [] (World.start (fun _ => none)) (by simp)).2.2.2.2⟩

/-- C4 as stated fails: a BOOL field that stores 2 is written as `2`. -/
theorem csv_process_bool_two :
    ∃ w, csv_process_field FILE.stdout (.FS_BOOL 2) (World.start (fun _ => none)) = .ok w ∧
      w.console = ['2'] ∧ w.console ≠ ['0'] ∧ w.console ≠ ['1'] :=
  ⟨_, rfl, rfl, by decide, by decide⟩

/-- C4, amended: a BOOL field is written as the signed decimal numeral of the
stored value cast to `int`; that is `0` for the value 0, `1` for the value 1,
and it is `0` or `1` exactly when the low 32 bits of the value are 0 or 1. -/
theorem csv_process_bool (num : Nat) (file : FILE) (w : World) :
    csv_process_field file (.FS_BOOL num) w = .ok (fprintf file (fmt_d (to_int num)) w) ∧
    fmt_d (to_int 0) = ['0'] ∧ fmt_d (to_int 1) = ['1'] ∧
    ((fmt_d (to_int num) = ['0'] ∨ fmt_d (to_int num) = ['1']) ↔ num % 2 ^ 32 ≤ 1) :=
  ⟨rfl, by decide, by decide, (fmt_d_zero_one _).trans (to_int_zero_one num)⟩

/-- C9: on an open destination `csv_process` ends in the fatal error exactly
when some field of the record has a type tag that is none of the five known
ones, and returns success otherwise. -/
theorem csv_process_fatal_iff (fs : List field_t) (w : World) (file : FILE)
    (hfile : w.file = some file) :
    (csv_process fs w = .error .fatal ↔ ∃ f ∈ fs, f.known = false) ∧
    ((¬ ∃ f ∈ fs, f.known = false) → ∃ w1, csv_process fs w = .ok w1) := by
  have hok : (¬ ∃ f ∈ fs, f.known = false) → ∃ w1, csv_process fs w = .ok w1 := by
    intro h
    refine ⟨_, csv_process_known fs w file hfile (fun f hf => ?_)⟩
    cases hk : f.known with
    | true => rfl
    | false => exact absurd ⟨f, hf, hk⟩ h
  refine ⟨⟨fun h => ?_, fun h => ?_⟩, hok⟩
  · by_contra hn
    obtain ⟨w1, hw1⟩ := hok hn
    rw [hw1] at h
    cases h
  · simp [csv_process, hfile, csv_process_loop_fatal _ _ _ _ h]

/-- C9, at a record whose second field has an unknown tag and at a record of
known tags, both written to standard output. -/
theorem csv_process_fatal_iff_witness :
    csv_process [field_t.FS_NULL, field_t.FS_OTHER 7]
        { World.start (fun _ => none) with file := some FILE.stdout } = .error .fatal ∧
    ∃ w1, csv_process [field_t.FS_NULL, field_t.FS_BOOL 1]
        { World.start (fun _ => none) with file := some FILE.stdout } = .ok w1 :=
  ⟨(csv_process_fatal_iff [field_t.FS_NULL, field_t.FS_OTHER 7]
      { World.start (fun _ => none) with file := some FILE.stdout } FILE.stdout rfl).1.mpr
      ⟨field_t.FS_OTHER 7, by simp, rfl⟩,
   (csv_process_fatal_iff [field_t.FS_NULL, field_t.FS_BOOL 1]
      { World.start (fun _ => none) with file := some FILE.stdout } FILE.stdout rfl).2
      (by decide)⟩

/-! ## From `csv_init` through the calls of `csv_process` -/

theorem fprintf_set_numRecords (f : FILE) (s : Text) (w : World) (n : Int) :
    fprintf f s { w with numRecords := n } = { fprintf f s w with numRecords := n } := by
  cases f with
  | stdout => rfl
  | named p => simp only [fprintf]; cases w.disk p <;> rfl

theorem fprintf_set_names (f : FILE) (s : Text) (w : World) (g : List (Option Text)) :
    fprintf f s { w with global_field_names := g }
      = { fprintf f s w with global_field_names := g } := by
  cases f with
  | stdout => rfl
  | named p => simp only [fprintf]; cases w.disk p <;> rfl

theorem fprintf_names (f : FILE) (s : Text) (w : World) :
    (fprintf f s w).global_field_names = w.global_field_names := by
  cases f with
  | stdout => rfl
  | named p => simp only [fprintf]; split <;> rfl

theorem fprintf_destination_present (f : FILE) (s : Text) (w : World)
    (h : destination_present w) : destination_present (fprintf f s w) := by
  intro p hp
  rw [fprintf_file] at hp
  obtain ⟨c, hc⟩ := h p hp
  cases f with
  | stdout => exact ⟨c, hc⟩
  | named q =>
    simp only [fprintf]
    cases hq : w.disk q with
    | none => exact ⟨c, hc⟩
    | some d =>
      by_cases hpq : p = q
      · subst hpq; exact ⟨d ++ s, by simp⟩
      · exact ⟨c, by simp [Function.update_noteq hpq, hc]⟩

theorem destination_text_fprintf (f : FILE) (s : Text) (w : World)
    (hfile : w.file = some f) (h : destination_present w) :
    destination_text (fprintf f s w) = destination_text w ++ s := by
  cases f with
  | stdout => simp [destination_text, fprintf, hfile]
  | named p =>
    obtain ⟨c, hc⟩ := h p hfile
    simp [destination_text, fprintf, hfile, hc]

theorem count_up_eq (k : Nat) (n : Int) (hn : wrap_int n = n) :
    count_up k n = wrap_int (n + k) := by
  induction k generalizing n with
  | zero => simp [count_up, hn]
  | succ k ih =>
    have h1 : count_up (k + 1) n = count_up k (wrap_int (n + 1)) := by
      simp [count_up, Function.iterate_succ_apply]
    rw [h1, ih _ (by unfold wrap_int; omega)]
    unfold wrap_int
    push_cast
    omega

theorem csv_process_all_known (rows : List (List field_t)) :
    ∀ (w : World) (file : FILE), w.file = some file →
      (∀ fs ∈ rows, ∀ f ∈ fs, f.known = true) →
      csv_process_all rows w
        = .ok (fprintf file ((rows.map row_text).flatten)
            { w with numRecords := count_up rows.length w.numRecords }) := by
  induction rows with
  | nil =>
    intro w file _ _
    simp only [csv_process_all, List.map_nil, List.flatten_nil, fprintf_nil, List.length_nil,
      count_up, Function.iterate_zero, id_eq]
  | cons fs rest ih =>
    intro w file hfile hk
    have hfs : ∀ f ∈ fs, f.known = true := hk fs (List.mem_cons_self _ _)
    have hrest : ∀ gs ∈ rest, ∀ f ∈ gs, f.known = true :=
      fun gs hgs => hk gs (List.mem_cons_of_mem _ hgs)
    simp only [csv_process_all, csv_process_known fs w file hfile hfs]
    rw [ih _ file (by rw [fprintf_file]; exact hfile) hrest]
    rw [fprintf_numRecords, fprintf_set_numRecords, fprintf_set_numRecords, fprintf_fprintf]
    simp only [List.map_cons, List.flatten_cons, List.length_cons, count_up,
      Function.iterate_succ_apply]
    congr 1
    cases file with
    | stdout => rfl
    | named p => simp only [fprintf]; cases w.disk p <;> rfl

theorem csv_init_loop_succ (file : FILE) (fields : List Text) :
    ∀ (i : Nat) (w : World),
      csv_init_loop file (i + 1) fields w
        = { fprintf file ((fields.map (fun x => [','] ++ x)).flatten) w with
            global_field_names := set_names (i + 1) fields w.global_field_names } := by
  induction fields with
  | nil => intro i w; simp [csv_init_loop, set_names, fprintf_nil]
  | cons name rest ih =>
    intro i w
    simp only [csv_init_loop, ih, set_names, fprintf_set_names, fprintf_fprintf, fprintf_names,
      List.map_cons, List.flatten_cons]
    simp [List.append_assoc, fprintf_fprintf, fprintf_names]

theorem csv_init_loop_zero (file : FILE) (fields : List Text) (w : World) :
    csv_init_loop file 0 fields w
      = { fprintf file ([','].intercalate fields) w with
          global_field_names := set_names 0 fields w.global_field_names } := by
  cases fields with
  | nil => simp [csv_init_loop, set_names, fprintf_nil, List.intercalate]
  | cons name rest =>
    simp only [csv_init_loop, csv_init_loop_succ, set_names, fprintf_set_names, fprintf_fprintf,
      fprintf_names, intercalate_cons_eq]
    simp

theorem csv_init_open_file (conf : state_conf) (w : World) :
    (csv_init_open conf w).file = some (csv_init_file conf) := by
  unfold csv_init_open csv_init_file
  split
  · split <;> rfl
  · rfl

theorem csv_init_eq (conf : state_conf) (fields : List Text) (w : World) :
    csv_init conf fields w
      = .ok (if conf.no_header_row then csv_init_open conf (csv_init_alloc fields w)
             else
              { fprintf (csv_init_file conf) (header_text fields)
                  (csv_init_open conf (csv_init_alloc fields w)) with
                global_field_names := set_names 0 fields
                  (csv_init_open conf (csv_init_alloc fields w)).global_field_names }) := by
  simp only [csv_init, csv_init_open_file, check_and_log_file_error]
  cases conf.no_header_row with
  | true => rfl
  | false =>
    simp only [csv_init_loop_zero, fprintf_set_names, fprintf_fprintf, header_text]

theorem csv_init_open_present (conf : state_conf) (w : World) :
    destination_present (csv_init_open conf w) := by
  intro p hp
  unfold csv_init_open at hp ⊢
  split at hp
  · rename_i name _
    by_cases hn : name = ['-']
    · simp [hn] at hp
    · simp only [hn, if_false, Option.some.injEq, FILE.named.injEq] at hp ⊢
      subst hp
      exact ⟨[], by simp⟩
  · simp at hp

theorem csv_init_open_text (conf : state_conf) (w : World) :
    destination_text (csv_init_open conf w)
      = match csv_init_file conf with
        | .stdout => w.console
        | .named _ => [] := by
  unfold csv_init_open csv_init_file destination_text
  cases conf.output_filename with
  | none => rfl
  | some name => by_cases hn : name = ['-'] <;> simp [hn]

theorem csv_init_open_numRecords (conf : state_conf) (w : World) :
    (csv_init_open conf w).numRecords = w.numRecords := by
  unfold csv_init_open
  split
  · split <;> rfl
  · rfl

theorem csv_init_open_console (conf : state_conf) (w : World) :
    (csv_init_open conf w).console = w.console := by
  unfold csv_init_open
  split
  · split <;> rfl
  · rfl

/-- What `csv_init` leaves behind: the stream, the counter, and the text of the
destination. -/
theorem csv_init_result (conf : state_conf) (fields : List Text) (w : World) :
    ∃ w1, csv_init conf fields w = .ok w1 ∧ w1.file = some (csv_init_file conf) ∧
      w1.numRecords = w.numRecords ∧ destination_present w1 ∧
      destination_text w1
        = (match csv_init_file conf with
           | .stdout => w.console
           | .named _ => []) ++ header_of conf fields := by
  refine ⟨_, csv_init_eq conf fields w, ?_⟩
  have hp := csv_init_open_present conf (csv_init_alloc fields w)
  have hf := csv_init_open_file conf (csv_init_alloc fields w)
  have ht := csv_init_open_text conf (csv_init_alloc fields w)
  have hn := csv_init_open_numRecords conf (csv_init_alloc fields w)
  cases hh : conf.no_header_row with
  | true =>
    simp only [if_true, header_of, hh, List.append_nil]
    exact ⟨hf, hn, hp, ht⟩
  | false =>
    have hp2 := fprintf_destination_present (csv_init_file conf) (header_text fields) _ hp
    have ht2 := destination_text_fprintf (csv_init_file conf) (header_text fields) _ hf hp
    have hf2 := fprintf_file (csv_init_file conf) (header_text fields)
      (csv_init_open conf (csv_init_alloc fields w))
    have hn2 := fprintf_numRecords (csv_init_file conf) (header_text fields)
      (csv_init_open conf (csv_init_alloc fields w))
    simp only [header_of, hh]
    have ht3 : destination_text (csv_init_open conf (csv_init_alloc fields w))
        = (match csv_init_file conf with
           | .stdout => w.console
           | .named _ => []) := ht
    refine ⟨hf2.trans hf, hn2.trans hn, hp2, ?_⟩
    simp only [Bool.false_eq_true, if_false]
    exact ht2.trans (by rw [ht3])

theorem destination_text_rows (rows : List (List field_t)) (w w2 : World) (file : FILE)
    (hfile : w.file = some file) (hp : destination_present w)
    (hk : ∀ fs ∈ rows, ∀ f ∈ fs, f.known = true) (h : csv_process_all rows w = .ok w2) :
    destination_text w2 = destination_text w ++ (rows.map row_text).flatten ∧
    w2.numRecords = count_up rows.length w.numRecords := by
  rw [csv_process_all_known rows w file hfile hk] at h
  injection h with h
  subst h
  refine ⟨?_, ?_⟩
  · exact destination_text_fprintf file _ { w with numRecords := _ } hfile hp
  · rw [fprintf_numRecords]

theorem digitChar_isDigit : ∀ d, d < 10 → (Nat.digitChar d).isDigit = true := by
  decide

theorem toDigits_isDigit (n : Nat) : ∀ c ∈ Nat.toDigits 10 n, c.isDigit = true := by
  rcases Nat.eq_zero_or_pos n with rfl | hn
  · intro c hc
    simp [Nat.toDigits, Nat.toDigitsCore] at hc
    subst hc; rfl
  · rw [toDigits_eq_digits 10 (by norm_num) n hn]
    intro c hc
    simp only [List.mem_map, List.mem_reverse] at hc
    obtain ⟨d, hd, rfl⟩ := hc
    exact digitChar_isDigit d (Nat.digits_lt_base (by norm_num) hd)

theorem hex_text_mem (readbuf : List Nat) : ∀ c ∈ hex_text readbuf, c ∈ hex_alphabet := by
  intro c hc
  simp only [hex_text, List.mem_flatten, List.mem_map] at hc
  obtain ⟨l, ⟨b, _, rfl⟩, hcl⟩ := hc
  have hlt : b % 256 < 256 := Nat.mod_lt _ (by norm_num)
  rw [fmt_02x_byte _ hlt] at hcl
  rcases List.mem_cons.mp hcl with h | h
  · subst h; exact hex_digit_mem _ (by omega)
  · rcases List.mem_cons.mp h with h | h
    · subst h; exact hex_digit_mem _ (Nat.mod_lt _ (by norm_num))
    · simp at h

theorem field_text_no_newline (f : field_t)
    (hs : ∀ ptr, f = .FS_STRING ptr → '\n' ∉ ptr) : '\n' ∉ field_text f := by
  cases f with
  | FS_STRING ptr =>
    have := hs ptr rfl
    simp only [field_text]
    split <;> simp [this]
  | FS_UINT64 num =>
    intro h
    have := toDigits_isDigit _ _ h
    simp at this
  | FS_BOOL num =>
    intro h
    simp only [field_text, fmt_d] at h
    split at h
    · rcases List.mem_cons.mp h with h | h
      · simp at h
      · have := toDigits_isDigit _ _ h
        simp at this
    · have := toDigits_isDigit _ _ h
      simp at this
  | FS_BINARY ptr =>
    intro h
    have := hex_text_mem ptr _ h
    revert this
    decide
  | FS_NULL => simp [field_text]
  | FS_OTHER tag => simp [field_text]

theorem mem_intercalate (sep : Text) (l : List Text) (c : Char)
    (h : c ∈ sep.intercalate l) : c ∈ sep ∨ ∃ x ∈ l, c ∈ x := by
  cases l with
  | nil => simp [List.intercalate] at h
  | cons a rest =>
    rw [intercalate_cons_eq] at h
    simp only [List.mem_append, List.mem_flatten, List.mem_map] at h
    rcases h with h | ⟨_, ⟨x, hx, rfl⟩, hc⟩
    · exact Or.inr ⟨a, List.mem_cons_self _ _, h⟩
    · rcases List.mem_append.mp hc with hc | hc
      · exact Or.inl hc
      · exact Or.inr ⟨x, List.mem_cons_of_mem _ hx, hc⟩

theorem row_text_line (fs : List field_t) (h : record_plain fs) :
    ∃ body, row_text fs = body ++ ['\n'] ∧ '\n' ∉ body := by
  refine ⟨[','].intercalate (fs.map field_text), rfl, fun hc => ?_⟩
  rcases mem_intercalate _ _ _ hc with h1 | ⟨x, hx, hcx⟩
  · simp at h1
  · obtain ⟨f, hf, rfl⟩ := List.mem_map.mp hx
    exact field_text_no_newline f (h.2 f hf) hcx

theorem rows_newlines (rows : List (List field_t)) (h : ∀ fs ∈ rows, record_plain fs) :
    ((rows.map row_text).flatten).count '\n' = rows.length := by
  induction rows with
  | nil => rfl
  | cons fs rest ih =>
    obtain ⟨body, hb, hn⟩ := row_text_line fs (h fs (List.mem_cons_self _ _))
    simp only [List.map_cons, List.flatten_cons, List.count_append, List.length_cons,
      ih (fun gs hgs => h gs (List.mem_cons_of_mem _ hgs)), hb]
    rw [List.count_eq_zero_of_not_mem hn]
    simp [Nat.add_comm]

/-! ## The claims on `csv_init` and on the run of calls -/

/-- C5 as stated fails: `numRecords` is an `int`, and after 2^31 calls of
`csv_process` on a record of one UINT64 field it is not 2^31 but the most
negative `int`. -/
theorem csv_process_count_overflow :
    ∃ w1 w2, csv_init { output_filename := none, no_header_row := false } []
        (World.start (fun _ => none)) = .ok w1 ∧
      csv_process_all (List.replicate (2 ^ 31) [.FS_UINT64 1]) w1 = .ok w2 ∧
      w2.numRecords = -2 ^ 31 ∧ w2.numRecords ≠ ((2 ^ 31 : Nat) : Int) := by
  obtain ⟨w1, h1, hf, hn, hp, -⟩ :=
    csv_init_result { output_filename := none, no_header_row := false } []
      (World.start (fun _ => none))
  have hk : ∀ fs ∈ List.replicate (2 ^ 31) [field_t.FS_UINT64 1],
      ∀ f ∈ fs, f.known = true := by
    intro fs hfs f hf
    rw [(List.mem_replicate.mp hfs).2] at hf
    simp only [List.mem_singleton] at hf
    subst hf
    rfl
  refine ⟨w1, _, h1, csv_process_all_known _ w1 _ hf hk, ?_⟩
  rw [fprintf_numRecords]
  simp only [List.length_replicate, hn, World.start]
  rw [count_up_eq _ _ (by decide)]
  constructor <;> decide

/-- C5, amended: from program start, after `csv_init` and one `csv_process`
call on each of k records of known types whose STRING values hold no newline,
the destination holds the header row (nothing when it is suppressed) followed
by exactly k data lines, each ended by its only newline; `numRecords` is k
wrapped to the range of `int`, which is k whenever k is below 2^31. -/
theorem csv_process_count (conf : state_conf) (fields : List Text)
    (disk : Text → Option Text) (rows : List (List field_t))
    (hrows : ∀ fs ∈ rows, record_plain fs) :
    ∃ w1 w2, csv_init conf fields (World.start disk) = .ok w1 ∧
      csv_process_all rows w1 = .ok w2 ∧
      w2.numRecords = wrap_int rows.length ∧
      (rows.length < 2 ^ 31 → w2.numRecords = rows.length) ∧
      destination_text w2 = header_of conf fields ++ (rows.map row_text).flatten ∧
      ((rows.map row_text).flatten).count '\n' = rows.length ∧
      ∀ fs ∈ rows, ∃ body, row_text fs = body ++ ['\n'] ∧ '\n' ∉ body := by
  obtain ⟨w1, h1, hf, hn, hp, ht⟩ := csv_init_result conf fields (World.start disk)
  have hk : ∀ fs ∈ rows, ∀ f ∈ fs, f.known = true := fun fs hfs => (hrows fs hfs).1
  have h2 := csv_process_all_known rows w1 _ hf hk
  obtain ⟨ht2, hn2⟩ := destination_text_rows rows w1 _ _ hf hp hk h2
  have hcount : count_up rows.length w1.numRecords = wrap_int rows.length := by
    have h0 : (World.start disk).numRecords = 0 := rfl
    rw [hn, h0, count_up_eq _ _ (by decide)]
    simp
  refine ⟨w1, _, h1, h2, hn2.trans hcount, fun hlt => ?_, ?_, rows_newlines rows hrows,
    fun fs hfs => row_text_line fs (hrows fs hfs)⟩
  · rw [hn2, hcount]
    unfold wrap_int
    omega
  · rw [ht2, ht]
    have hc : (World.start disk).console = [] := rfl
    cases csv_init_file conf <;> simp [hc]

/-- C5, at two records written behind a header row to a named file. -/
theorem csv_process_count_witness :
    (∀ fs ∈ [[field_t.FS_STRING ['x'], field_t.FS_UINT64 5], [field_t.FS_NULL]],
      record_plain fs) ∧
    ∃ w1 w2, csv_init { output_filename := some ['o'], no_header_row := false } [['a'], ['b']]
        (World.start (fun _ => none)) = .ok w1 ∧
      csv_process_all [[field_t.FS_STRING ['x'], field_t.FS_UINT64 5], [field_t.FS_NULL]] w1
        = .ok w2 ∧
      w2.numRecords = 2 ∧
      destination_text w2 = ['a', ',', 'b', '\n', 'x', ',', '5', '\n', '\n'] := by
  have hplain : ∀ fs ∈ [[field_t.FS_STRING ['x'], field_t.FS_UINT64 5], [field_t.FS_NULL]],
      record_plain fs := by
    intro fs hfs
    simp only [List.mem_cons, List.mem_singleton, List.not_mem_nil, or_false] at hfs
    rcases hfs with rfl | rfl
    · refine ⟨by decide, ?_⟩
      intro f hf ptr hp
      simp only [List.mem_cons, List.mem_singleton, List.not_mem_nil, or_false] at hf
      rcases hf with rfl | rfl
      · injection hp with hp; subst hp; decide
      · cases hp
    · refine ⟨by decide, ?_⟩
      intro f hf ptr hp
      simp only [List.mem_singleton] at hf
      subst hf
      cases hp
  obtain ⟨w1, w2, h1, h2, -, hn, ht, -⟩ :=
    csv_process_count { output_filename := some ['o'], no_header_row := false } [['a'], ['b']]
      (fun _ => none) _ hplain
  exact ⟨hplain, w1, w2, h1, h2, hn (by decide), ht⟩

/-- C10: `csv_init` returns success; with the header row not suppressed it
writes to the destination the names in order, joined by single commas, then one
newline; with the header row suppressed it writes nothing; a named file is
created empty first, so this text is all it holds, and every data row of a
later `csv_process` comes behind it. -/
theorem csv_init_header (conf : state_conf) (fields : List Text) (w : World) :
    ∃ w1, csv_init conf fields w = .ok w1 ∧ w1.file = some (csv_init_file conf) ∧
      destination_text w1
        = (match csv_init_file conf with
           | .stdout => w.console
           | .named _ => []) ++
          (if conf.no_header_row then [] else [','].intercalate fields ++ ['\n']) ∧
      ∀ (rows : List (List field_t)) (w2 : World), (∀ fs ∈ rows, ∀ f ∈ fs, f.known = true) →
        csv_process_all rows w1 = .ok w2 →
        destination_text w2 = destination_text w1 ++ (rows.map row_text).flatten := by
  obtain ⟨w1, h1, hf, hn, hp, ht⟩ := csv_init_result conf fields w
  refine ⟨w1, h1, hf, ?_, fun rows w2 hk h2 => (destination_text_rows rows w1 w2 _ hf hp hk h2).1⟩
  rw [ht]
  rfl

/-! ## Reading lines and tokens -/

theorem read_chars_line (body rest : Text) (hb : '\n' ∉ body) :
    ∀ n, body.length < n → read_chars n (body ++ '\n' :: rest) = (body ++ ['\n'], rest) := by
  induction body with
  | nil =>
    intro n hn
    cases n with
    | zero => simp at hn
    | succ n => simp [read_chars]
  | cons c body ih =>
    intro n hn
    cases n with
    | zero => simp at hn
    | succ n =>
      have hc : c ≠ '\n' := fun h => hb (by simp [h])
      have hb2 : '\n' ∉ body := fun h => hb (List.mem_cons_of_mem _ h)
      have hlen : body.length < n := by simpa using hn
      simp [read_chars, hc, ih hb2 n hlen]

theorem getline_line (body rest : Text) (hb : '\n' ∉ body) :
    getline (body ++ '\n' :: rest) = some (body ++ ['\n'], rest) := by
  have h := read_chars_line body rest hb (body ++ '\n' :: rest).length (by simp)
  cases body with
  | nil => exact congrArg some h
  | cons c body => exact congrArg some h

theorem fgets_line (body rest : Text) (hb : '\n' ∉ body) (hlen : body.length + 1 < 1024) :
    fgets 1024 (body ++ '\n' :: rest) = some (body ++ ['\n'], rest) := by
  have h := read_chars_line body rest hb 1023 (by omega)
  cases body with
  | nil => exact congrArg some h
  | cons c body => exact congrArg some h

theorem takeWhile_append_stop {p : Char → Bool} (l : Text) (x : Char) (r : Text)
    (hl : ∀ c ∈ l, p c = true) (hx : p x = false) :
    (l ++ x :: r).takeWhile p = l ∧ (l ++ x :: r).dropWhile p = x :: r := by
  induction l with
  | nil => simp [List.takeWhile, List.dropWhile, hx]
  | cons c l ih =>
    have hc : p c = true := hl c (List.mem_cons_self _ _)
    have := ih (fun d hd => hl d (List.mem_cons_of_mem _ hd))
    simp [List.takeWhile, List.dropWhile, hc, this]

theorem takeWhile_all {p : Char → Bool} (l : Text) (hl : ∀ c ∈ l, p c = true) :
    l.takeWhile p = l ∧ l.dropWhile p = [] := by
  induction l with
  | nil => simp
  | cons c l ih =>
    have hc : p c = true := hl c (List.mem_cons_self _ _)
    have := ih (fun d hd => hl d (List.mem_cons_of_mem _ hd))
    simp [List.takeWhile, List.dropWhile, hc, this]

/-- A token that is followed by a delimiter. -/
theorem strtok_token (delim : List Char) (tok : Text) (d : Char) (s : Text)
    (hne : tok ≠ []) (ht : ∀ c ∈ tok, c ∉ delim) (hd : d ∈ delim) :
    strtok delim (tok ++ d :: s) = (some tok, s) := by
  cases tok with
  | nil => exact absurd rfl hne
  | cons c tok =>
    have hc : c ∉ delim := ht c (List.mem_cons_self _ _)
    have h := takeWhile_append_stop (p := fun x => !delim.contains x) (c :: tok) d s
      (fun x hx => by simp [ht x hx]) (by simp [hd])
    have hdw : ((c :: tok) ++ d :: s).dropWhile (fun x => delim.contains x)
        = c :: (tok ++ d :: s) := by
      simp [List.dropWhile_cons, hc]
    unfold strtok
    rw [hdw]
    show (some (((c :: tok) ++ d :: s).takeWhile _),
      (((c :: tok) ++ d :: s).dropWhile _).drop 1) = _
    rw [h.1, h.2]
    rfl

/-- A token that runs to the end of the string. -/
theorem strtok_last (delim : List Char) (tok : Text)
    (hne : tok ≠ []) (ht : ∀ c ∈ tok, c ∉ delim) :
    strtok delim tok = (some tok, []) := by
  cases tok with
  | nil => exact absurd rfl hne
  | cons c tok =>
    have hc : c ∉ delim := ht c (List.mem_cons_self _ _)
    have h := takeWhile_all (p := fun x => !delim.contains x) (c :: tok)
      (fun x hx => by simp [ht x hx])
    have hdw : (c :: tok).dropWhile (fun x => delim.contains x) = c :: tok := by
      simp [List.dropWhile_cons, hc]
    unfold strtok
    rw [hdw]
    show (some ((c :: tok).takeWhile _), ((c :: tok).dropWhile _).drop 1) = _
    rw [h.1, h.2]
    rfl

/-- A string of delimiters only, or the empty string: no token. -/
theorem strtok_none (delim : List Char) (s : Text) (hs : ∀ c ∈ s, c ∈ delim) :
    strtok delim s = (none, []) := by
  have h := takeWhile_all (p := fun x => delim.contains x) s (fun x hx => by simp [hs x hx])
  unfold strtok
  rw [h.2]

theorem isDigit_not_isspace (c : Char) (h : c.isDigit = true) : isspace c = false := by
  cases hs : isspace c with
  | false => rfl
  | true =>
    exfalso
    simp only [isspace, Bool.or_eq_true, decide_eq_true_eq] at hs
    rcases hs with ((((hs | hs) | hs) | hs) | hs) | hs <;> subst hs <;> revert h <;> decide

theorem isDigit_not_sign (c : Char) (h : c.isDigit = true) : c ≠ '-' ∧ c ≠ '+' := by
  constructor <;> rintro rfl <;> revert h <;> decide

/-- On a decimal numeral followed by nothing or by a character that is not a
digit, `strtoul` returns the value of the numeral, capped at `ULONG_MAX`. -/
theorem strtoul_digits (ds tail : Text) (hne : ds ≠ []) (hd : ∀ c ∈ ds, c.isDigit = true)
    (htail : ∀ x r, tail = x :: r → x.isDigit = false) :
    strtoul (ds ++ tail)
      = if 2 ^ 64 ≤ digits_value ds then 2 ^ 64 - 1 else digits_value ds := by
  cases ds with
  | nil => exact absurd rfl hne
  | cons c ds =>
    have hc : c.isDigit = true := hd c (List.mem_cons_self _ _)
    have hsp : isspace c = false := isDigit_not_isspace c hc
    have hsg := isDigit_not_sign c hc
    have htake : ((c :: ds) ++ tail).takeWhile Char.isDigit = c :: ds := by
      cases tail with
      | nil => rw [List.append_nil]; exact (takeWhile_all _ hd).1
      | cons x r => exact (takeWhile_append_stop _ x r hd (htail x r rfl)).1
    have hdrop : ((c :: ds) ++ tail).dropWhile isspace = (c :: ds) ++ tail := by
      simp [List.dropWhile, hsp]
    unfold strtoul
    rw [hdrop]
    have hsign : strtoul_sign ((c :: ds) ++ tail) = (false, (c :: ds) ++ tail) := by
      simp [strtoul_sign, hsg.1, hsg.2]
    rw [hsign]
    simp only [htake]
    simp

theorem strtoul_numeral (ds tail : Text) (hne : ds ≠ []) (hd : ∀ c ∈ ds, c.isDigit = true)
    (htail : ∀ x r, tail = x :: r → x.isDigit = false) (hv : digits_value ds < 2 ^ 64) :
    strtoul (ds ++ tail) = digits_value ds := by
  rw [strtoul_digits ds tail hne hd htail, if_neg (by omega)]

theorem isDigit_not_comma (c : Char) (h : c.isDigit = true) : c ≠ ',' ∧ c ≠ '\n' := by
  constructor <;> rintro rfl <;> revert h <;> decide

/-- The sorter reads a well-formed data row back as its record. -/
theorem parse_record_line (r : DataRow) (h : r.well_formed) :
    parse_record r.line = .ok r.record := by
  obtain ⟨-, hc1, hcomma, -, hdne, hdig, hval, hrest⟩ := h
  obtain ⟨col1, digits, rest⟩ := r
  simp only at hc1 hcomma hdne hdig hval hrest
  have hrest : ∀ t, rest = some t → '\n' ∉ t := fun t ht => hrest t ht
  have hdc : ∀ c ∈ digits, c ∉ [','] := fun c hc => by
    simpa using (isDigit_not_comma c (hdig c hc)).1
  cases rest with
  | none =>
    have hline : DataRow.line ⟨col1, digits, none⟩ = col1 ++ ',' :: (digits ++ ['\n']) := by
      simp [DataRow.line]
    have h1 := strtok_token [','] col1 ',' (digits ++ ['\n']) hc1
      (fun c hc hmem => by simp at hmem; subst hmem; exact hcomma hc) (by simp)
    have h2 := strtok_last [','] (digits ++ ['\n']) (by simp)
      (fun c hc => by
        rcases List.mem_append.mp hc with hc | hc
        · exact hdc c hc
        · simp at hc; subst hc; decide)
    have h3 := strtoul_numeral digits ['\n'] hdne hdig
      (fun x r hx => by injection hx with hx _; subst hx; rfl) hval
    rw [hline]
    simp only [parse_record, h1, h2, h3]
    rfl
  | some t =>
    have hline : DataRow.line ⟨col1, digits, some t⟩
        = col1 ++ ',' :: (digits ++ ',' :: (t ++ ['\n'])) := by
      simp [DataRow.line]
    have h1 := strtok_token [','] col1 ',' (digits ++ ',' :: (t ++ ['\n'])) hc1
      (fun c hc hmem => by simp at hmem; subst hmem; exact hcomma hc) (by simp)
    have h2 := strtok_token [','] digits ',' (t ++ ['\n']) hdne hdc (by simp)
    have h3 := strtoul_numeral digits [] hdne hdig (fun x r hx => by cases hx) hval
    rw [List.append_nil] at h3
    rw [hline]
    simp only [parse_record, h1, h2, h3]
    cases t with
    | nil =>
      have h4 := strtok_none ['\n'] ['\n'] (by simp)
      simp only [List.nil_append, h4]
      rfl
    | cons c t =>
      have h4 := strtok_token ['\n'] (c :: t) '\n' [] (by simp)
        (fun x hx hmem => by simp at hmem; subst hmem; exact hrest (c :: t) rfl hx) (by simp)
      simp only [h4]
      rfl

theorem line_split (r : DataRow) (h : r.well_formed) :
    ∃ body, r.line = body ++ ['\n'] ∧ '\n' ∉ body ∧ body.length + 1 < 1024 := by
  obtain ⟨hlen, -, -, hnl, -, hdig, -, hrest⟩ := h
  have hrest : ∀ t, r.rest = some t → '\n' ∉ t := fun t ht => hrest t ht
  refine ⟨r.col1 ++ ',' :: r.digits ++
    (match r.rest with
     | some t => ',' :: t
     | none => []), rfl, ?_, ?_⟩
  · intro hmem
    rcases List.mem_append.mp hmem with hm | hm
    · rcases List.mem_append.mp hm with hm | hm
      · exact hnl hm
      · rcases List.mem_cons.mp hm with hm | hm
        · cases hm
        · exact (isDigit_not_comma _ (hdig _ hm)).2 rfl
    · cases hr : r.rest with
      | none => simp [hr] at hm
      | some t =>
        simp only [hr, List.mem_cons] at hm
        rcases hm with hm | hm
        · cases hm
        · exact hrest t hr hm
  · have : r.line.length = (r.col1 ++ ',' :: r.digits ++
        (match r.rest with
         | some t => ',' :: t
         | none => [])).length + 1 := by
      simp [DataRow.line]
      omega
    omega

/-- The parsing loop on a file of well-formed data rows fills one record a
row, for as many rows as there is room. -/
theorem parse_loop_rows (rows : List DataRow) (h : ∀ r ∈ rows, r.well_formed) :
    ∀ n, parse_loop n ((rows.map DataRow.line).flatten)
      = .ok ((rows.take n).map DataRow.record) := by
  induction rows with
  | nil =>
    intro n
    cases n with
    | zero => rfl
    | succ n => rfl
  | cons r rest ih =>
    intro n
    cases n with
    | zero => rfl
    | succ n =>
      have hr := h r (List.mem_cons_self _ _)
      obtain ⟨body, hb, hnl, hlen⟩ := line_split r hr
      have hf : fgets 1024 (r.line ++ (rest.map DataRow.line).flatten)
          = some (r.line, (rest.map DataRow.line).flatten) := by
        rw [hb, List.append_assoc]
        exact fgets_line body _ hnl hlen
      simp only [List.map_cons, List.flatten_cons, parse_loop, hf, parse_record_line r hr,
        ih (fun x hx => h x (List.mem_cons_of_mem _ hx)) n, List.take_succ_cons]

/-! ## The sorter -/

theorem compare_records_le (a b : Record) :
    compare_records a b ≤ 0 ↔ a.ip_src_num ≤ b.ip_src_num := by
  unfold compare_records
  split <;> split <;> omega

theorem qsort_perm (records : List Record) : (qsort records).Perm records :=
  List.perm_insertionSort _ records

theorem qsort_sorted (records : List Record) :
    ((qsort records).map Record.ip_src_num).Sorted (· ≤ ·) := by
  haveI : IsTotal Record (fun a b => compare_records a b ≤ 0) :=
    ⟨fun a b => by simp only [compare_records_le]; exact Nat.le_total _ _⟩
  haveI : IsTrans Record (fun a b => compare_records a b ≤ 0) :=
    ⟨fun a b c => by simp only [compare_records_le]; exact Nat.le_trans⟩
  have h := List.sorted_insertionSort (fun a b => compare_records a b ≤ 0) records
  unfold List.Sorted at h ⊢
  rw [List.pairwise_map]
  exact h.imp (fun hab => (compare_records_le _ _).mp hab)

theorem qsort_sorted_lt (records : List Record)
    (hd : (records.map Record.ip_src_num).Nodup) :
    ((qsort records).map Record.ip_src_num).Sorted (· < ·) := by
  have hp : ((qsort records).map Record.ip_src_num).Perm (records.map Record.ip_src_num) :=
    (qsort_perm records).map _
  exact (qsort_sorted records).lt_of_le (hp.nodup_iff.mpr hd)

/-- The sorter on a file whose first line ends in a newline: that line goes
to `getline`, the rest of the file to the parsing loop. -/
theorem csv_post_process_file (w : World) (p hdr rest : Text)
    (hname : w.csv_filename = some p) (hdisk : w.disk p = some (hdr ++ '\n' :: rest))
    (hnl : '\n' ∉ hdr) :
    csv_post_process w
      = if !names_readable w.global_field_names w.global_field_count.toNat then
          .error .undefined
        else if w.numRecords < 0 then .ok w
        else
          match parse_loop w.numRecords.toNat rest with
          | .error e => .error e
          | .ok records =>
            if records.length < w.numRecords.toNat then .error .undefined
            else .ok (write_sorted (hdr ++ ['\n']) records w) := by
  simp only [csv_post_process, hname, Option.some_bind, hdisk, getline_line hdr rest hnl]

theorem write_sorted_disk (line : Text) (records : List Record) (w : World) :
    (write_sorted line records w).disk output_processed
      = some (line ++ ((qsort records).map write_record).flatten) := by
  simp [write_sorted]

/-! ## The claims on `csv_post_process` and `csv_close` -/

/-- C6 as stated fails.  Two rows whose second columns are the distinct
numerals 2^64 and 2^64 + 1 come out with the same second column, `ULONG_MAX`;
and a row with an empty first column and the second column 5 leaves `strtok`
without a second token, so that no sorted file is written. -/
theorem csv_close_not_increasing :
    (∃ w1 w2 w3 w4,
      csv_init { output_filename := some "results.csv".toList, no_header_row := false }
        ["addr".toList, "n".toList] (World.start (fun _ => none)) = .ok w1 ∧
      csv_process [.FS_STRING ['a'], .FS_STRING "18446744073709551616".toList] w1
        = .ok w2 ∧
      csv_process [.FS_STRING ['a'], .FS_STRING "18446744073709551617".toList] w2
        = .ok w3 ∧
      csv_close w3 = .ok w4 ∧
      w3.numRecords = 2 ∧
      w3.disk "results.csv".toList
        = some "addr,n\na,18446744073709551616\na,18446744073709551617\n".toList ∧
      w4.disk output_processed
        = some "addr,n\na,18446744073709551615\na,18446744073709551615\n".toList) ∧
    (∃ w1 w2,
      csv_init { output_filename := some "results.csv".toList, no_header_row := false }
        ["addr".toList, "n".toList] (World.start (fun _ => none)) = .ok w1 ∧
      csv_process [.FS_NULL, .FS_UINT64 5] w1 = .ok w2 ∧
      w2.numRecords = 1 ∧
      w2.disk "results.csv".toList = some "addr,n\n,5\n".toList ∧
      csv_close w2 = .error .undefined) :=
  ⟨⟨_, _, _, _, rfl, rfl, rfl, rfl, rfl, rfl, rfl⟩, ⟨_, _, rfl, rfl, rfl, rfl, rfl⟩⟩

/-- C6, amended: when the file is a header line followed by `numRecords`
data rows, each shorter than 1024 characters, with a first column that is not
empty and a second column that is a decimal numeral below 2^64, the values
pairwise distinct, `csv_post_process` writes the sorted file: the header line,
then the rows of the records in an order in which the numeric second column is
strictly increasing (so also non-decreasing) from top to bottom. -/
theorem csv_post_process_sorted (w : World) (p hdr : Text) (rows : List DataRow)
    (hname : w.csv_filename = some p)
    (hdisk : w.disk p = some (hdr ++ '\n' :: (rows.map DataRow.line).flatten))
    (hnl : '\n' ∉ hdr)
    (hnames : names_readable w.global_field_names w.global_field_count.toNat = true)
    (hcount : w.numRecords = rows.length)
    (hwf : ∀ r ∈ rows, r.well_formed)
    (hdist : (rows.map (fun r => digits_value r.digits)).Nodup) :
    ∃ w1, csv_post_process w = .ok w1 ∧
      w1.disk output_processed
        = some (hdr ++ '\n' :: ((qsort (rows.map DataRow.record)).map write_record).flatten) ∧
      (qsort (rows.map DataRow.record)).Perm (rows.map DataRow.record) ∧
      ((qsort (rows.map DataRow.record)).map Record.ip_src_num).Sorted (· < ·) ∧
      ((qsort (rows.map DataRow.record)).map Record.ip_src_num).Sorted (· ≤ ·) := by
  have hparse := parse_loop_rows rows hwf rows.length
  rw [List.take_length] at hparse
  have hpost := csv_post_process_file w p hdr _ hname hdisk hnl
  have hn : w.numRecords.toNat = rows.length := by rw [hcount]; simp
  have hneg : ¬ w.numRecords < 0 := by rw [hcount]; omega
  rw [hnames, hn, hparse] at hpost
  simp only [Bool.not_true, Bool.false_eq_true, if_false, hneg, List.length_map,
    lt_self_iff_false] at hpost
  have hkeys : (rows.map DataRow.record).map Record.ip_src_num
      = rows.map (fun r => digits_value r.digits) := by
    rw [List.map_map]; rfl
  refine ⟨_, hpost, ?_, qsort_perm _, qsort_sorted_lt _ (by rw [hkeys]; exact hdist),
    qsort_sorted _⟩
  rw [write_sorted_disk]
  simp

/-- C6, at a file of a header line and two rows with the keys 20 and 3. -/
theorem csv_post_process_sorted_witness :
    (∀ r ∈ [DataRow.mk ['b'] ['2', '0'] none, DataRow.mk ['a'] ['3'] (some ['x'])],
      r.well_formed) ∧
    ∃ w1, csv_post_process
        (World.closing ['f'] "h,k\nb,20\na,3,x\n".toList 2 [['h'], ['k']]) = .ok w1 ∧
      w1.disk output_processed = some "h,k\na,3,x\nb,20\n".toList := by
  have hwf : ∀ r ∈ [DataRow.mk ['b'] ['2', '0'] none, DataRow.mk ['a'] ['3'] (some ['x'])],
      r.well_formed := by decide
  obtain ⟨w1, h1, h2, -⟩ := csv_post_process_sorted
    (World.closing ['f'] "h,k\nb,20\na,3,x\n".toList 2 [['h'], ['k']]) ['f'] "h,k".toList
    [DataRow.mk ['b'] ['2', '0'] none, DataRow.mk ['a'] ['3'] (some ['x'])]
    rfl rfl (by decide) rfl rfl hwf (by decide)
  exact ⟨hwf, w1, h1, h2.trans (by decide)⟩

/-- C7: when the first line of the file ends in a newline, whatever it holds
and however long it is, `csv_post_process` hands the rest of the file, and
nothing of the first line, to the parsing loop; and the sorted file, when it
is written, begins with that line, newline included, before every record. -/
theorem csv_post_process_header (w : World) (p hdr rest : Text)
    (hname : w.csv_filename = some p) (hdisk : w.disk p = some (hdr ++ '\n' :: rest))
    (hnl : '\n' ∉ hdr) :
    csv_post_process w
      = (if !names_readable w.global_field_names w.global_field_count.toNat then
          .error .undefined
        else if w.numRecords < 0 then .ok w
        else
          match parse_loop w.numRecords.toNat rest with
          | .error e => .error e
          | .ok records =>
            if records.length < w.numRecords.toNat then .error .undefined
            else .ok (write_sorted (hdr ++ ['\n']) records w)) ∧
    ∀ (records : List Record),
      (write_sorted (hdr ++ ['\n']) records w).disk output_processed
        = some (hdr ++ '\n' :: ((qsort records).map write_record).flatten) := by
  refine ⟨csv_post_process_file w p hdr rest hname hdisk hnl, fun records => ?_⟩
  rw [write_sorted_disk]
  simp

/-- C7, at a file whose header line is `h,k` and whose rows have the keys 20
and 3. -/
theorem csv_post_process_header_witness :
    '\n' ∉ "h,k".toList ∧
    ∃ w1, csv_post_process
        (World.closing ['f'] "h,k\nb,20\na,3,x\n".toList 2 [['h'], ['k']]) = .ok w1 ∧
      w1.disk output_processed = some ("h,k".toList ++ '\n' :: "a,3,x\nb,20\n".toList) :=
  ⟨by decide, _,
   (csv_post_process_header (World.closing ['f'] "h,k\nb,20\na,3,x\n".toList 2 [['h'], ['k']])
      ['f'] "h,k".toList "b,20\na,3,x\n".toList rfl rfl (by decide)).1.trans rfl,
   rfl⟩

/-- C8: the scenario.  With the header row enabled and the field names addr,
ip, ok, the records (10.0.0.2, 5, true) and (10.0.0.1, 3, false) and then
`csv_close` leave the primary file with the lines addr,ip,ok / 10.0.0.2,5,1 /
10.0.0.1,3,0 and the sorted file with the lines addr,ip,ok / 10.0.0.1,3,0 /
10.0.0.2,5,1. -/
theorem csv_close_scenario (disk : Text → Option Text) :
    ∃ w1 w2 w3 w4,
      csv_init { output_filename := some "results.csv".toList, no_header_row := false }
        ["addr".toList, "ip".toList, "ok".toList] (World.start disk) = .ok w1 ∧
      csv_process [.FS_STRING "10.0.0.2".toList, .FS_UINT64 5, .FS_BOOL 1] w1 = .ok w2 ∧
      csv_process [.FS_STRING "10.0.0.1".toList, .FS_UINT64 3, .FS_BOOL 0] w2 = .ok w3 ∧
      csv_close w3 = .ok w4 ∧
      w4.disk "results.csv".toList
        = some "addr,ip,ok\n10.0.0.2,5,1\n10.0.0.1,3,0\n".toList ∧
      w4.disk output_processed
        = some "addr,ip,ok\n10.0.0.1,3,0\n10.0.0.2,5,1\n".toList :=
  ⟨_, _, _, _, rfl, rfl, rfl, rfl, rfl, rfl⟩

/-! ## Decimal numerals read back -/

theorem digitChar_value : ∀ d, d < 10 → (Nat.digitChar d).toNat - '0'.toNat = d := by
  decide

theorem digitChar_ne_zero : ∀ d, d < 10 → d ≠ 0 → Nat.digitChar d ≠ '0' := by
  decide

theorem foldr_digitChar (L : List Nat) (h : ∀ d ∈ L, d < 10) :
    (L.map Nat.digitChar).foldr (fun c acc => acc * 10 + (c.toNat - '0'.toNat)) 0
      = Nat.ofDigits 10 L := by
  induction L with
  | nil => rfl
  | cons d L ih =>
    have hd := digitChar_value d (h d (List.mem_cons_self _ _))
    simp only [List.map_cons, List.foldr_cons, Nat.ofDigits_cons,
      ih (fun x hx => h x (List.mem_cons_of_mem _ hx)), hd]
    omega

/-- The decimal numeral that `%lu` prints has the value printed. -/
theorem digits_value_toDigits (n : Nat) : digits_value (Nat.toDigits 10 n) = n := by
  rcases Nat.eq_zero_or_pos n with rfl | hn
  · rfl
  · rw [toDigits_eq_digits 10 (by norm_num) n hn, digits_value, List.map_reverse,
      List.foldl_reverse]
    rw [foldr_digitChar _ (fun d hd => Nat.digits_lt_base (by norm_num) hd)]
    exact Nat.ofDigits_digits 10 n

theorem toDigits_ne_nil (n : Nat) : Nat.toDigits 10 n ≠ [] := by
  rcases Nat.eq_zero_or_pos n with rfl | hn
  · simp [Nat.toDigits, Nat.toDigitsCore]
  · rw [toDigits_eq_digits 10 (by norm_num) n hn]
    have : Nat.digits 10 n ≠ [] := Nat.digits_ne_nil_iff_ne_zero.mpr (by omega)
    simpa using this

/-- No leading zero, except for the numeral of zero itself. -/
theorem toDigits_head (n : Nat) (hn : n ≠ 0) : (Nat.toDigits 10 n).head? ≠ some '0' := by
  rw [toDigits_eq_digits 10 (by norm_num) n (by omega)]
  have hne : Nat.digits 10 n ≠ [] := Nat.digits_ne_nil_iff_ne_zero.mpr hn
  have hlast := Nat.getLast_digit_ne_zero 10 hn
  have hlt : (Nat.digits 10 n).getLast hne < 10 :=
    Nat.digits_lt_base (by norm_num) (List.getLast_mem hne)
  rw [List.head?_map, List.head?_reverse, List.getLast?_eq_getLast _ hne]
  simp only [Option.map_some', ne_eq, Option.some.injEq]
  exact digitChar_ne_zero _ hlt hlast

theorem strtoul_fmt_lu (n : Nat) (tail : Text) (hn : n < 2 ^ 64)
    (htail : ∀ x r, tail = x :: r → x.isDigit = false) :
    strtoul (fmt_lu n ++ tail) = n := by
  have h := strtoul_numeral (Nat.toDigits 10 n) tail (toDigits_ne_nil n) (toDigits_isDigit n)
    htail (by rw [digits_value_toDigits]; exact hn)
  rw [digits_value_toDigits] at h
  exact h

theorem compare_records_cases (a b : Record) :
    (compare_records a b = -1 ↔ a.ip_src_num < b.ip_src_num) ∧
    (compare_records a b = 0 ↔ a.ip_src_num = b.ip_src_num) ∧
    (compare_records a b = 1 ↔ b.ip_src_num < a.ip_src_num) := by
  unfold compare_records
  split <;> split <;> omega

/-! ## The claims on the comparator and on UINT64 fields -/

/-- C16: `compare_records` returns -1, 0 or 1, and which one depends on the
numeric keys only: -1 exactly when the first key is smaller, 0 exactly when
the keys are equal, 1 exactly when the first key is larger.  So the result
changes sign when the arguments are swapped, and the relation "the result is
at most 0" is total and transitive. -/
theorem compare_records_order (a b c : Record) :
    (compare_records a b = -1 ∨ compare_records a b = 0 ∨ compare_records a b = 1) ∧
    (compare_records a b = -1 ↔ a.ip_src_num < b.ip_src_num) ∧
    (compare_records a b = 0 ↔ a.ip_src_num = b.ip_src_num) ∧
    (compare_records a b = 1 ↔ a.ip_src_num > b.ip_src_num) ∧
    (∀ a1 b1 : Record, a1.ip_src_num = a.ip_src_num → b1.ip_src_num = b.ip_src_num →
      compare_records a1 b1 = compare_records a b) ∧
    compare_records a b = -compare_records b a ∧
    (compare_records a b ≤ 0 ∨ compare_records b a ≤ 0) ∧
    (compare_records a b ≤ 0 → compare_records b c ≤ 0 → compare_records a c ≤ 0) := by
  obtain ⟨h1, h2, h3⟩ := compare_records_cases a b
  refine ⟨?_, h1, h2, h3, ?_, ?_, ?_, ?_⟩
  · rcases Nat.lt_trichotomy a.ip_src_num b.ip_src_num with h | h | h
    · exact Or.inl (h1.mpr h)
    · exact Or.inr (Or.inl (h2.mpr h))
    · exact Or.inr (Or.inr (h3.mpr h))
  · intro a1 b1 ha hb
    simp only [compare_records, ha, hb]
  · unfold compare_records
    split <;> split <;> omega
  · simp only [compare_records_le]
    exact Nat.le_total _ _
  · simp only [compare_records_le]
    exact Nat.le_trans

/-- C17: for n below 2^64 a UINT64 field is written as the decimal numeral of
n: digits only, no leading zero unless n is 0, of value n.  Read back by
`strtoul`, alone or followed by a character that is not a digit such as the
comma or the newline that ends a second column, it gives n; so the sorter's
record of a row with that second column has the key n, and the comparator
orders two such records as the numbers are ordered. -/
theorem csv_process_uint64 (n : Nat) (hn : n < 2 ^ 64) (file : FILE) (w : World) :
    csv_process_field file (.FS_UINT64 n) w = .ok (fprintf file (Nat.toDigits 10 n) w) ∧
    (∀ c ∈ Nat.toDigits 10 n, c.isDigit = true) ∧
    Nat.toDigits 10 n ≠ [] ∧
    (n ≠ 0 → (Nat.toDigits 10 n).head? ≠ some '0') ∧
    Nat.toDigits 10 0 = ['0'] ∧
    digits_value (Nat.toDigits 10 n) = n ∧
    (∀ tail : Text, (∀ x r, tail = x :: r → x.isDigit = false) →
      strtoul (Nat.toDigits 10 n ++ tail) = n) ∧
    (∀ (col1 : Text) (rest : Option Text),
      (DataRow.mk col1 (Nat.toDigits 10 n) rest).line.length < 1024 →
      col1 ≠ [] → ',' ∉ col1 → '\n' ∉ col1 → (∀ t ∈ rest, '\n' ∉ t) →
      ∃ r, parse_record (DataRow.mk col1 (Nat.toDigits 10 n) rest).line = .ok r ∧
        r.saddr = col1 ∧ r.ip_src_num = n) ∧
    (∀ (m : Nat) (a b : Record), m < 2 ^ 64 →
      a.ip_src_num = strtoul (Nat.toDigits 10 n) → b.ip_src_num = strtoul (Nat.toDigits 10 m) →
      ((compare_records a b ≤ 0 ↔ n ≤ m) ∧ (compare_records a b = -1 ↔ n < m))) := by
  have hback : ∀ (k : Nat), k < 2 ^ 64 → strtoul (Nat.toDigits 10 k) = k := by
    intro k hk
    have := strtoul_fmt_lu k [] hk (fun x r h => by cases h)
    simpa [fmt_lu] using this
  refine ⟨?_, toDigits_isDigit n, toDigits_ne_nil n, toDigits_head n, rfl,
    digits_value_toDigits n, fun tail ht => strtoul_fmt_lu n tail hn ht, ?_, ?_⟩
  · have hmod : n % 2 ^ 64 = n := Nat.mod_eq_of_lt hn
    simp only [csv_process_field, fmt_lu, hmod]
  · intro col1 rest hlen hne hcomma hnl hrest
    have hwf : (DataRow.mk col1 (Nat.toDigits 10 n) rest).well_formed :=
      ⟨hlen, hne, hcomma, hnl, toDigits_ne_nil n, toDigits_isDigit n,
        by simpa [digits_value_toDigits] using hn, hrest⟩
    exact ⟨_, parse_record_line _ hwf, rfl, digits_value_toDigits n⟩
  · intro m a b hm ha hb
    rw [hback n hn] at ha
    rw [hback m hm] at hb
    rw [compare_records_le, (compare_records_cases a b).1, ha, hb]
    exact ⟨Iff.rfl, Iff.rfl⟩

/-- C17, at the largest 64-bit value and at zero. -/
theorem csv_process_uint64_witness :
    18446744073709551615 < 2 ^ 64 ∧
    Nat.toDigits 10 18446744073709551615 = "18446744073709551615".toList ∧
    strtoul ("18446744073709551615".toList ++ [',']) = 18446744073709551615 ∧
    strtoul (Nat.toDigits 10 0 ++ ['\n']) = 0 := by
  have h1 := (csv_process_uint64 18446744073709551615 (by norm_num) FILE.stdout
    (World.start (fun _ => none))).2.2.2.2.2.2.1 [','] (fun x r h => by
      injection h with h _; subst h; rfl)
  have h0 := (csv_process_uint64 0 (by norm_num) FILE.stdout
    (World.start (fun _ => none))).2.2.2.2.2.2.1 ['\n'] (fun x r h => by
      injection h with h _; subst h; rfl)
  exact ⟨by norm_num, by decide, h1, h0⟩

/-! ## Commas in a data line -/

theorem field_text_no_comma (f : field_t)
    (hs : ∀ ptr, f = .FS_STRING ptr → ',' ∉ ptr) : ',' ∉ field_text f := by
  cases f with
  | FS_STRING ptr =>
    have := hs ptr rfl
    simp [field_text, this]
  | FS_UINT64 num =>
    intro h
    have := toDigits_isDigit _ _ h
    simp at this
  | FS_BOOL num =>
    intro h
    simp only [field_text, fmt_d] at h
    split at h
    · rcases List.mem_cons.mp h with h | h
      · simp at h
      · have := toDigits_isDigit _ _ h
        simp at this
    · have := toDigits_isDigit _ _ h
      simp at this
  | FS_BINARY ptr =>
    intro h
    have := hex_text_mem ptr _ h
    revert this
    decide
  | FS_NULL => simp [field_text]
  | FS_OTHER tag => simp [field_text]

theorem flatten_sep_eq (sep x : Text) (l : List Text) :
    ((x :: l).map (fun y => sep ++ y)).flatten = sep ++ sep.intercalate (x :: l) := by
  rw [intercalate_cons_eq]
  simp

theorem intercalate_empty_between (sep : Text) (pre post : List Text) :
    sep.intercalate (pre ++ [] :: post)
      = (pre.map (fun x => x ++ sep)).flatten ++ (post.map (fun x => sep ++ x)).flatten := by
  induction pre with
  | nil => simp [intercalate_cons_eq]
  | cons a pre ih =>
    cases hp : pre ++ [] :: post with
    | nil => simp at hp
    | cons x l =>
      rw [List.cons_append, intercalate_cons_eq, hp, flatten_sep_eq, ← hp, ih]
      simp [List.append_assoc]

theorem count_comma_intercalate (l : List Text) (h : ∀ x ∈ l, ',' ∉ x) (hne : l ≠ []) :
    ([','].intercalate l).count ',' + 1 = l.length := by
  cases l with
  | nil => exact absurd rfl hne
  | cons a rest =>
    rw [intercalate_cons_eq, List.count_append,
      List.count_eq_zero_of_not_mem (h a (List.mem_cons_self _ _))]
    have hrest : ∀ (r : List Text), (∀ x ∈ r, ',' ∉ x) →
        ((r.map (fun x => [','] ++ x)).flatten).count ',' = r.length := by
      intro r
      induction r with
      | nil => intro _; rfl
      | cons b r ih =>
        intro hr
        simp only [List.map_cons, List.flatten_cons, List.count_append, List.length_cons,
          ih (fun x hx => hr x (List.mem_cons_of_mem _ hx)),
          List.count_eq_zero_of_not_mem (hr b (List.mem_cons_self _ _))]
        simp [Nat.add_comm]
    rw [hrest rest (fun x hx => h x (List.mem_cons_of_mem _ hx))]
    simp

/-! ## The claims on NULL fields and on reading a line back -/

/-- C11: a NULL field makes `csv_process` write nothing.  In the line of a
record with a NULL field at some position, each field before it is followed by
its comma, each field behind it is preceded by its comma, and nothing stands
in between.  When no STRING value holds a comma, the line of a record of n
fields of known types, n at least 1, with or without a NULL among them, holds
exactly n - 1 commas. -/
theorem csv_process_null (pre post : List field_t) (w : World) (file : FILE)
    (hfile : w.file = some file) (hk : ∀ f ∈ pre ++ .FS_NULL :: post, f.known = true) :
    csv_process_field file .FS_NULL w = .ok w ∧
    csv_process (pre ++ .FS_NULL :: post) w
      = .ok (fprintf file
          ((pre.map (fun f => field_text f ++ [','])).flatten ++
            (post.map (fun f => ',' :: field_text f)).flatten ++ ['\n'])
          { w with numRecords := wrap_int (w.numRecords + 1) }) ∧
    ((∀ f ∈ pre ++ .FS_NULL :: post, ∀ ptr, f = .FS_STRING ptr → ',' ∉ ptr) →
      (((pre.map (fun f => field_text f ++ [','])).flatten ++
        (post.map (fun f => ',' :: field_text f)).flatten ++ ['\n']).count ',') + 1
        = (pre ++ .FS_NULL :: post).length) ∧
    (∀ fs : List field_t, fs ≠ [] → (∀ f ∈ fs, f.known = true) →
      (∀ f ∈ fs, ∀ ptr, f = .FS_STRING ptr → ',' ∉ ptr) →
      csv_process fs w
        = .ok (fprintf file ([','].intercalate (fs.map field_text) ++ ['\n'])
            { w with numRecords := wrap_int (w.numRecords + 1) }) ∧
      ([','].intercalate (fs.map field_text) ++ ['\n']).count ',' + 1 = fs.length) := by
  have hrow : row_text (pre ++ .FS_NULL :: post)
      = (pre.map (fun f => field_text f ++ [','])).flatten ++
          (post.map (fun f => ',' :: field_text f)).flatten ++ ['\n'] := by
    have h := intercalate_empty_between [','] (pre.map field_text) (post.map field_text)
    have hnull : field_text .FS_NULL = [] := rfl
    simp only [row_text, List.map_append, List.map_cons, hnull]
    rw [h]
    simp [List.map_map, Function.comp_def]
  have hcount : ∀ fs : List field_t, fs ≠ [] →
      (∀ f ∈ fs, ∀ ptr, f = .FS_STRING ptr → ',' ∉ ptr) →
      ([','].intercalate (fs.map field_text) ++ ['\n']).count ',' + 1 = fs.length := by
    intro fs hne hc
    have h := count_comma_intercalate (fs.map field_text)
      (fun x hx => by
        obtain ⟨f, hf, rfl⟩ := List.mem_map.mp hx
        exact field_text_no_comma f (hc f hf))
      (by simpa using hne)
    rw [List.length_map] at h
    rw [List.count_append, ← h]
    simp
  refine ⟨rfl, ?_, fun hc => ?_, fun fs hne hkn hc => ⟨?_, hcount fs hne hc⟩⟩
  · rw [csv_process_known _ w file hfile hk, hrow]
  · rw [← hrow, row_text]
    exact hcount _ (by simp) hc
  · rw [csv_process_known fs w file hfile hkn, row_text]

/-- C11, at the record (STRING a, NULL, UINT64 7) written to standard output. -/
theorem csv_process_null_witness :
    (∀ f ∈ [field_t.FS_STRING ['a']] ++ field_t.FS_NULL :: [field_t.FS_UINT64 7],
      f.known = true) ∧
    (csv_process ([field_t.FS_STRING ['a']] ++ field_t.FS_NULL :: [field_t.FS_UINT64 7])
        { World.start (fun _ => none) with file := some FILE.stdout }).map World.console
      = .ok ['a', ',', ',', '7', '\n'] := by
  refine ⟨by decide, ?_⟩
  rw [(csv_process_null [field_t.FS_STRING ['a']] [field_t.FS_UINT64 7]
    { World.start (fun _ => none) with file := some FILE.stdout } FILE.stdout rfl
    (by decide)).2.1]
  rfl

theorem intercalate_cons_cons (sep a x : Text) (l : List Text) :
    sep.intercalate (a :: x :: l) = a ++ sep ++ sep.intercalate (x :: l) := by
  rw [intercalate_cons_eq, flatten_sep_eq]
  simp [List.append_assoc]

/-- The line `csv_process` writes for a record that starts with a STRING
without comma and a UINT64 is the line of a data row. -/
theorem row_text_data_row (s : Text) (n : Nat) (rest : List field_t) (hs : ',' ∉ s) :
    row_text (.FS_STRING s :: .FS_UINT64 n :: rest)
      = (DataRow.mk s (fmt_lu (n % 2 ^ 64))
          (if rest = [] then none else some ([','].intercalate (rest.map field_text)))).line := by
  have h1 : field_text (.FS_STRING s) = s := by simp [field_text, hs]
  have h2 : field_text (.FS_UINT64 n) = fmt_lu (n % 2 ^ 64) := rfl
  cases rest with
  | nil =>
    simp [row_text, DataRow.line, intercalate_cons_eq, h1, h2]
  | cons x xs =>
    simp only [row_text, DataRow.line, List.map_cons, h1, h2]
    rw [intercalate_cons_cons, intercalate_cons_cons]
    simp [List.append_assoc]

theorem data_row_written (r : DataRow) (hv : fmt_lu (digits_value r.digits) = r.digits)
    (hrest : r.rest ≠ some []) : write_record r.record = r.line := by
  obtain ⟨col1, digits, rest⟩ := r
  simp only at hv hrest
  cases rest with
  | none => simp [write_record, DataRow.record, DataRow.line, hv]
  | some t =>
    cases t with
    | nil => exact absurd rfl hrest
    | cons c t => simp [write_record, DataRow.record, DataRow.line, hv]

/-- C12 as stated fails: for the record (STRING a, UINT64 5, NULL) the line
written is `a,5,`; the sorter reads it back without a rest and writes `a,5`. -/
theorem csv_close_drops_comma :
    ∃ w1 w2 w3,
      csv_init { output_filename := some "results.csv".toList, no_header_row := false }
        ["addr".toList, "n".toList, "x".toList] (World.start (fun _ => none)) = .ok w1 ∧
      csv_process [.FS_STRING ['a'], .FS_UINT64 5, .FS_NULL] w1 = .ok w2 ∧
      csv_close w2 = .ok w3 ∧
      w2.disk "results.csv".toList = some "addr,n,x\na,5,\n".toList ∧
      parse_record "a,5,\n".toList = .ok { saddr := ['a'], ip_src_num := 5, restOfLine := none } ∧
      write_record { saddr := ['a'], ip_src_num := 5, restOfLine := none } = "a,5\n".toList ∧
      w3.disk output_processed = some "addr,n,x\na,5\n".toList :=
  ⟨_, _, _, rfl, rfl, rfl, rfl, rfl, rfl, rfl⟩

/-- C12, amended: for a record whose first field is a non-empty STRING without
comma and newline, whose second field is a UINT64, whose remaining fields are
of known types without newline, whose line is shorter than 1024 characters
with its newline, and in which the text behind the second column's comma, if
there is one, is not empty: `fgets` reads the line written by `csv_process`
whole, the sorter's tokenizer makes a record of it, and writing that record
gives the line back. -/
theorem sorter_reads_back (s : Text) (n : Nat) (rest : List field_t)
    (hs1 : s ≠ []) (hs2 : ',' ∉ s) (hs3 : '\n' ∉ s) (hrest : record_plain rest)
    (hlen : (row_text (.FS_STRING s :: .FS_UINT64 n :: rest)).length < 1024)
    (hrem : rest = [] ∨ [','].intercalate (rest.map field_text) ≠ []) :
    (∀ more : Text,
      fgets 1024 (row_text (.FS_STRING s :: .FS_UINT64 n :: rest) ++ more)
        = some (row_text (.FS_STRING s :: .FS_UINT64 n :: rest), more)) ∧
    ∃ r, parse_record (row_text (.FS_STRING s :: .FS_UINT64 n :: rest)) = .ok r ∧
      r.saddr = s ∧ r.ip_src_num = n % 2 ^ 64 ∧
      write_record r = row_text (.FS_STRING s :: .FS_UINT64 n :: rest) := by
  have hrow := row_text_data_row s n rest hs2
  have hmod : n % 2 ^ 64 < 2 ^ 64 := Nat.mod_lt _ (by norm_num)
  have hwf : (DataRow.mk s (fmt_lu (n % 2 ^ 64))
      (if rest = [] then none else some ([','].intercalate (rest.map field_text)))).well_formed := by
    refine ⟨by rw [← hrow]; exact hlen, hs1, hs2, hs3, toDigits_ne_nil _, toDigits_isDigit _,
      by simpa [fmt_lu, digits_value_toDigits] using hmod, ?_⟩
    intro t ht hc
    by_cases hr : rest = []
    · simp [hr] at ht
    · simp only [hr, if_false, Option.mem_def, Option.some.injEq] at ht
      subst ht
      rcases mem_intercalate _ _ _ hc with h1 | ⟨x, hx, hcx⟩
      · simp at h1
      · obtain ⟨f, hf, rfl⟩ := List.mem_map.mp hx
        exact field_text_no_newline f (hrest.2 f hf) hcx
  obtain ⟨body, hb, hnl, hbl⟩ := line_split _ hwf
  refine ⟨fun more => ?_, _, by rw [hrow]; exact parse_record_line _ hwf, rfl,
    by simp [DataRow.record, fmt_lu, digits_value_toDigits], ?_⟩
  · rw [hrow, hb, List.append_assoc]
    exact fgets_line body more hnl hbl
  · rw [hrow]
    apply data_row_written
    · simp [fmt_lu, digits_value_toDigits]
    · by_cases hr : rest = []
      · simp [hr]
      · rcases hrem with h | h
        · exact absurd h hr
        · simp [hr, h]

/-- C12, at the record (STRING 10.0.0.2, UINT64 5, BOOL 1). -/
theorem sorter_reads_back_witness :
    record_plain [field_t.FS_BOOL 1] ∧
    ∃ r, parse_record "10.0.0.2,5,1\n".toList = .ok r ∧
      write_record r = "10.0.0.2,5,1\n".toList := by
  have hp : record_plain [field_t.FS_BOOL 1] := by
    refine ⟨by decide, ?_⟩
    intro f hf ptr hptr
    simp only [List.mem_singleton] at hf
    subst hf
    cases hptr
  obtain ⟨r, h1, -, -, h2⟩ := (sorter_reads_back "10.0.0.2".toList 5 [field_t.FS_BOOL 1]
    (by decide) (by decide) (by decide) hp (by decide) (Or.inr (by decide))).2
  exact ⟨hp, r, h1, h2⟩

/-! ## Lines with two tokens -/

theorem strtok_some (delim : List Char) (s : Text) (h : ∃ x ∈ s, x ∉ delim) :
    ∃ tok s1, strtok delim s = (some tok, s1) := by
  unfold strtok
  cases hd : s.dropWhile (fun c => delim.contains c) with
  | nil =>
    exfalso
    obtain ⟨x, hx, hxd⟩ := h
    have := (List.dropWhile_eq_nil_iff.mp hd) x hx
    simp at this
    exact hxd this
  | cons c t => exact ⟨_, _, rfl⟩

theorem parse_record_readable (body : Text) (h : line_readable body) :
    parse_record (body ++ ['\n']) = .ok (record_of_line (body ++ ['\n'])) := by
  obtain ⟨-, -, hhead, hcomma⟩ := h
  have hsplit : body = body.takeWhile (fun x => !([','].contains x)) ++
      body.dropWhile (fun x => !([','].contains x)) := (List.takeWhile_append_dropWhile _ _).symm
  have htake : ∀ c ∈ body.takeWhile (fun x => !([','].contains x)), c ∉ [','] := by
    intro c hc hmem
    have := List.mem_takeWhile_imp hc
    simp at this hmem
    exact this hmem
  have hne : body.takeWhile (fun x => !([','].contains x)) ≠ [] := by
    cases body with
    | nil => simp at hcomma
    | cons x body =>
      have hx : x ≠ ',' := fun hx => hhead (by simp [hx])
      simp [List.takeWhile_cons, hx]
  obtain ⟨rest, hdrop⟩ : ∃ rest, body.dropWhile (fun x => !([','].contains x)) = ',' :: rest := by
    cases hd : body.dropWhile (fun x => !([','].contains x)) with
    | nil =>
      exfalso
      have := (List.dropWhile_eq_nil_iff.mp hd) ',' hcomma
      simp at this
    | cons y rest =>
      have := List.head_dropWhile_not (fun x => !([','].contains x)) body (by rw [hd]; simp)
      simp only [hd, List.head_cons] at this
      simp at this
      exact ⟨rest, by rw [this]⟩
  have hbody : body ++ ['\n'] = body.takeWhile (fun x => !([','].contains x)) ++
      ',' :: (rest ++ ['\n']) := by
    conv_lhs => rw [hsplit, hdrop]
    simp
  have h1 := strtok_token [','] _ ',' (rest ++ ['\n']) hne htake (by simp)
  obtain ⟨tok, s2, h2⟩ := strtok_some [','] (rest ++ ['\n'])
    ⟨'\n', by simp, by decide⟩
  have hok : ∃ r, parse_record (body ++ ['\n']) = .ok r := by
    rw [hbody]
    simp only [parse_record, h1, h2]
    exact ⟨_, rfl⟩
  obtain ⟨r, hr⟩ := hok
  simp only [record_of_line, hr]

/-- The parsing loop on readable lines fills one record a line, for as many
lines as there is room. -/
theorem parse_loop_lines (bodies : List Text) (h : ∀ b ∈ bodies, line_readable b) :
    ∀ n, parse_loop n (lines_text bodies)
      = .ok ((bodies.take n).map (fun b => record_of_line (b ++ ['\n']))) := by
  induction bodies with
  | nil =>
    intro n
    cases n with
    | zero => rfl
    | succ n => rfl
  | cons b rest ih =>
    intro n
    cases n with
    | zero => rfl
    | succ n =>
      have hb := h b (List.mem_cons_self _ _)
      have hf : fgets 1024 (b ++ ['\n'] ++ lines_text rest)
          = some (b ++ ['\n'], lines_text rest) := by
        rw [List.append_assoc]
        exact fgets_line b _ hb.2.1 hb.1
      have ih2 := ih (fun x hx => h x (List.mem_cons_of_mem _ hx)) n
      simp only [lines_text] at hf ih2 ⊢
      simp only [List.map_cons, List.flatten_cons, parse_loop, hf, parse_record_readable b hb,
        ih2, List.take_succ_cons]

/-- The sorter on a file of a header line and readable lines, when the count
does not exceed the number of lines. -/
theorem csv_post_process_lines (w : World) (p hdr : Text) (bodies : List Text)
    (hname : w.csv_filename = some p)
    (hdisk : w.disk p = some (hdr ++ '\n' :: lines_text bodies))
    (hnl : '\n' ∉ hdr)
    (hnames : names_readable w.global_field_names w.global_field_count.toNat = true)
    (hread : ∀ b ∈ bodies, line_readable b)
    (h0 : 0 ≤ w.numRecords) (hle : w.numRecords.toNat ≤ bodies.length) :
    csv_post_process w
      = .ok (write_sorted (hdr ++ ['\n'])
          ((bodies.take w.numRecords.toNat).map (fun b => record_of_line (b ++ ['\n']))) w) := by
  rw [csv_post_process_file w p hdr _ hname hdisk hnl, hnames,
    parse_loop_lines bodies hread]
  have hneg : ¬ w.numRecords < 0 := by omega
  have hlen : ¬ ((bodies.take w.numRecords.toNat).map
      (fun b => record_of_line (b ++ ['\n']))).length < w.numRecords.toNat := by
    rw [List.length_map, List.length_take]
    omega
  simp only [Bool.not_true, Bool.false_eq_true, if_false, hneg, hlen]

/-- The sorter on a file with fewer readable lines than the count: some
elements of the array stay unfilled. -/
theorem csv_post_process_short (w : World) (p hdr : Text) (bodies : List Text)
    (hname : w.csv_filename = some p)
    (hdisk : w.disk p = some (hdr ++ '\n' :: lines_text bodies))
    (hnl : '\n' ∉ hdr)
    (hread : ∀ b ∈ bodies, line_readable b)
    (hgt : bodies.length < w.numRecords.toNat) :
    csv_post_process w = .error .undefined := by
  rw [csv_post_process_file w p hdr _ hname hdisk hnl, parse_loop_lines bodies hread]
  have hneg : ¬ w.numRecords < 0 := by omega
  have hlen : ((bodies.take w.numRecords.toNat).map
      (fun b => record_of_line (b ++ ['\n']))).length < w.numRecords.toNat := by
    rw [List.length_map, List.length_take]
    omega
  simp only [hneg, hlen, if_true, if_false]
  split <;> rfl

/-! ## The state `csv_close` finds -/

theorem fprintf_csv_filename (f : FILE) (s : Text) (w : World) :
    (fprintf f s w).csv_filename = w.csv_filename := by
  cases f with
  | stdout => rfl
  | named p => simp only [fprintf]; split <;> rfl

theorem fprintf_count (f : FILE) (s : Text) (w : World) :
    (fprintf f s w).global_field_count = w.global_field_count := by
  cases f with
  | stdout => rfl
  | named p => simp only [fprintf]; split <;> rfl

theorem set_append_at (pre : List (Option Text)) (x y : Option Text)
    (l : List (Option Text)) : (pre ++ x :: l).set pre.length y = pre ++ y :: l := by
  induction pre with
  | nil => rfl
  | cons a pre ih => simp [List.set, ih]

theorem set_names_fill (fields : List Text) :
    ∀ pre : List (Option Text),
      set_names pre.length fields (pre ++ List.replicate fields.length none)
        = pre ++ fields.map some := by
  induction fields with
  | nil => intro pre; simp [set_names]
  | cons name rest ih =>
    intro pre
    have h := ih (pre ++ [some name])
    simp only [List.length_append, List.length_singleton, List.append_assoc,
      List.singleton_append] at h
    simp only [set_names, List.length_cons, List.replicate_succ, set_append_at, h,
      List.map_cons]

/-- With the header row written, `csv_init` stores every name. -/
theorem set_names_all (fields : List Text) :
    set_names 0 fields (List.replicate fields.length none) = fields.map some := by
  have h := set_names_fill fields []
  simpa using h

theorem names_readable_stored (fields : List Text) :
    names_readable (fields.map some) fields.length = true := by
  unfold names_readable
  rw [List.all_eq_true]
  intro i hi
  have hlt : i < fields.length := List.mem_range.mp hi
  simp [List.get?_eq_getElem?, List.getElem?_map, List.getElem?_eq_getElem hlt]

theorem names_readable_zero (names : List (Option Text)) : names_readable names 0 = true := rfl

theorem csv_init_open_names (conf : state_conf) (w : World) :
    (csv_init_open conf w).global_field_names = w.global_field_names ∧
    (csv_init_open conf w).global_field_count = w.global_field_count := by
  unfold csv_init_open
  split
  · split <;> exact ⟨rfl, rfl⟩
  · exact ⟨rfl, rfl⟩

theorem csv_init_open_named (conf : state_conf) (w : World) (name : Text)
    (hconf : conf.output_filename = some name) (hname : name ≠ ['-']) :
    (csv_init_open conf w).csv_filename = some name ∧ csv_init_file conf = .named name := by
  unfold csv_init_open csv_init_file
  simp [hconf, hname]

/-- The state after `csv_init` with a named output file and one call of
`csv_process` for each of the records. -/
theorem run_state (conf : state_conf) (fields : List Text) (disk : Text → Option Text)
    (rows : List (List field_t)) (name : Text)
    (hconf : conf.output_filename = some name) (hname : name ≠ ['-'])
    (hk : ∀ fs ∈ rows, ∀ f ∈ fs, f.known = true) :
    ∃ w1 w2, csv_init conf fields (World.start disk) = .ok w1 ∧
      csv_process_all rows w1 = .ok w2 ∧
      w2.csv_filename = some name ∧
      w2.disk name = some (header_of conf fields ++ (rows.map row_text).flatten) ∧
      w2.global_field_count = fields.length ∧
      w1.global_field_count = fields.length ∧
      w1.global_field_names
        = (if conf.no_header_row then List.replicate fields.length none else fields.map some) ∧
      w2.global_field_names = w1.global_field_names ∧
      w2.numRecords = wrap_int rows.length := by
  obtain ⟨hcf, hfile⟩ := csv_init_open_named conf (csv_init_alloc fields (World.start disk))
    name hconf hname
  obtain ⟨hon, hoc⟩ := csv_init_open_names conf (csv_init_alloc fields (World.start disk))
  obtain ⟨w1, h1, hf, hn, hp, ht⟩ := csv_init_result conf fields (World.start disk)
  have h1e := csv_init_eq conf fields (World.start disk)
  rw [h1] at h1e
  injection h1e with h1e
  have h2 := csv_process_all_known rows w1 _ hf hk
  obtain ⟨ht2, hn2⟩ := destination_text_rows rows w1 _ _ hf hp hk h2
  have hcount : count_up rows.length w1.numRecords = wrap_int rows.length := by
    have h0 : (World.start disk).numRecords = 0 := rfl
    rw [hn, h0, count_up_eq _ _ (by decide)]
    simp
  have hw1 : w1.csv_filename = some name ∧ w1.global_field_count = fields.length ∧
      w1.global_field_names
        = (if conf.no_header_row then List.replicate fields.length none
           else fields.map some) := by
    rw [h1e]
    cases hh : conf.no_header_row with
    | true =>
      simp only [if_true]
      exact ⟨hcf, hoc, hon⟩
    | false =>
      simp only [Bool.false_eq_true, if_false]
      refine ⟨(fprintf_csv_filename _ _ _).trans hcf, (fprintf_count _ _ _).trans hoc, ?_⟩
      show set_names 0 fields _ = _
      rw [hon]
      exact set_names_all fields
  have hpresent : destination_present
      (fprintf (csv_init_file conf) ((rows.map row_text).flatten)
        { w1 with numRecords := count_up rows.length w1.numRecords }) :=
    fprintf_destination_present _ _ _ hp
  have hfile2 : (fprintf (csv_init_file conf) ((rows.map row_text).flatten)
      { w1 with numRecords := count_up rows.length w1.numRecords }).file
      = some (.named name) := by
    rw [fprintf_file]; exact hf.trans (by rw [hfile])
  obtain ⟨content, hcontent⟩ := hpresent name hfile2
  have hdt : destination_text (fprintf (csv_init_file conf) ((rows.map row_text).flatten)
      { w1 with numRecords := count_up rows.length w1.numRecords }) = content := by
    simp [destination_text, hfile2, hcontent]
  refine ⟨w1, _, h1, h2, ?_, ?_, ?_, hw1.2.1, hw1.2.2, ?_, hn2.trans hcount⟩
  · rw [fprintf_csv_filename]; exact hw1.1
  · rw [hcontent, ← hdt, ht2, ht, hfile]
    have hc : (World.start disk).console = [] := rfl
    simp
  · rw [fprintf_count]; exact hw1.2.1
  · rw [fprintf_names]

/-! ## The claims on the number of records and on the sorted rows -/

set_option maxRecDepth 1000000 in
/-- C19 as stated fails.  A row of 1023 characters is shorter than 1024, but
`fgets` fills the buffer with it and leaves its newline in the file; the next
call reads that newline as a line of its own, in which `strtok` finds one
token only, and no sorted file is written. -/
theorem csv_post_process_full_buffer :
    ("a,5,".toList ++ List.replicate 1019 'x').length = 1023 ∧
    fgets 1024 ("a,5,".toList ++ List.replicate 1019 'x' ++ "\nb,2\n".toList)
      = some ("a,5,".toList ++ List.replicate 1019 'x', "\nb,2\n".toList) ∧
    parse_record ['\n'] = .error .undefined ∧
    parse_loop 2 ("a,5,".toList ++ List.replicate 1019 'x' ++ "\nb,2\n".toList)
      = .error .undefined ∧
    csv_post_process (World.closing ['f']
        ("h,k\n".toList ++ ("a,5,".toList ++ List.replicate 1019 'x' ++ "\nb,2\n".toList))
        2 [['h'], ['k']])
      = .error .undefined :=
  ⟨rfl, rfl, rfl, rfl, rfl⟩

/-- C19, amended: when the file is a header line followed by exactly
`numRecords` lines, each shorter than 1024 characters with its newline, not
beginning with a comma and holding a comma, every line becomes a record,
`csv_post_process` writes the sorted file, and the rows behind its header line
are the written forms of a permutation of those records: none is dropped,
repeated or changed, each keeps the first column and the rest that came with
its key, and there are `numRecords` rows. -/
theorem csv_post_process_permutation (w : World) (p hdr : Text) (bodies : List Text)
    (hname : w.csv_filename = some p)
    (hdisk : w.disk p = some (hdr ++ '\n' :: lines_text bodies))
    (hnl : '\n' ∉ hdr)
    (hnames : names_readable w.global_field_names w.global_field_count.toNat = true)
    (hread : ∀ b ∈ bodies, line_readable b)
    (hcount : w.numRecords = bodies.length) :
    (∀ b ∈ bodies, parse_record (b ++ ['\n']) = .ok (record_of_line (b ++ ['\n']))) ∧
    ∃ w1, csv_post_process w = .ok w1 ∧
      w1.disk output_processed
        = some (hdr ++ '\n' ::
            ((qsort (bodies.map (fun b => record_of_line (b ++ ['\n'])))).map
              write_record).flatten) ∧
      (qsort (bodies.map (fun b => record_of_line (b ++ ['\n'])))).Perm
        (bodies.map (fun b => record_of_line (b ++ ['\n']))) ∧
      ((qsort (bodies.map (fun b => record_of_line (b ++ ['\n'])))).map write_record).Perm
        ((bodies.map (fun b => record_of_line (b ++ ['\n']))).map write_record) ∧
      ((qsort (bodies.map (fun b => record_of_line (b ++ ['\n'])))).map write_record).length
        = bodies.length := by
  have hn : w.numRecords.toNat = bodies.length := by rw [hcount]; simp
  have hpost := csv_post_process_lines w p hdr bodies hname hdisk hnl hnames hread
    (by rw [hcount]; omega) (by omega)
  rw [hn, List.take_length] at hpost
  refine ⟨fun b hb => parse_record_readable b (hread b hb), _, hpost, ?_, qsort_perm _,
    (qsort_perm _).map _, ?_⟩
  · rw [write_sorted_disk]
    simp
  · rw [List.length_map, (qsort_perm _).length_eq, List.length_map]

/-- C19, amended, at a file of a header line and three lines, two of them
with the same key. -/
theorem csv_post_process_permutation_witness :
    (∀ b ∈ ["b,7,x".toList, "a,5".toList, "c,7,y".toList], line_readable b) ∧
    ∃ w1, csv_post_process
        (World.closing ['f'] "h,k\nb,7,x\na,5\nc,7,y\n".toList 3 [['h'], ['k']]) = .ok w1 ∧
      ∃ rows : List Text, w1.disk output_processed = some ("h,k\n".toList ++ rows.flatten) ∧
        rows.Perm ["b,7,x\n".toList, "a,5\n".toList, "c,7,y\n".toList] := by
  have hread : ∀ b ∈ ["b,7,x".toList, "a,5".toList, "c,7,y".toList], line_readable b := by
    decide
  obtain ⟨-, w1, h1, h2, -, h3, -⟩ := csv_post_process_permutation
    (World.closing ['f'] "h,k\nb,7,x\na,5\nc,7,y\n".toList 3 [['h'], ['k']]) ['f'] "h,k".toList
    ["b,7,x".toList, "a,5".toList, "c,7,y".toList] rfl rfl (by decide) rfl hread rfl
  exact ⟨hread, w1, h1, _, h2.trans (by simp), h3⟩

/-- C14 as stated fails.  With one data line and a count of 2 the second
element of the array is never filled and is sorted and written all the same;
and a data line without a comma leaves `strtok` without a second token.  In
both cases the behaviour is undefined and no sorted file is assured. -/
theorem csv_post_process_unfilled :
    getline "h\na,1\n".toList = some ("h\n".toList, "a,1\n".toList) ∧
    parse_loop 2 "a,1\n".toList
      = .ok [{ saddr := ['a'], ip_src_num := 1, restOfLine := none }] ∧
    csv_post_process (World.closing ['f'] "h\na,1\n".toList 2 [['h']]) = .error .undefined ∧
    parse_loop 1 "abc\n".toList = .error .undefined ∧
    csv_post_process (World.closing ['f'] "h\nabc\n".toList 1 [['h']]) = .error .undefined :=
  ⟨rfl, rfl, rfl, rfl, rfl⟩

/-- C14, amended: when the file is a header line followed by d lines that the
sorter reads whole and with two tokens each, and the count k is at most d,
`csv_post_process` raises no error and the sorted file holds, behind the
header line, exactly k = min(k, d) rows, the written forms of a permutation of
the records of the first k lines; the lines beyond the first k are ignored. -/
theorem csv_post_process_first_k (w : World) (p hdr : Text) (bodies : List Text) (k : Nat)
    (hname : w.csv_filename = some p)
    (hdisk : w.disk p = some (hdr ++ '\n' :: lines_text bodies))
    (hnl : '\n' ∉ hdr)
    (hnames : names_readable w.global_field_names w.global_field_count.toNat = true)
    (hread : ∀ b ∈ bodies, line_readable b)
    (hcount : w.numRecords = k) (hle : k ≤ bodies.length) :
    ∃ w1, csv_post_process w = .ok w1 ∧
      w1.disk output_processed
        = some (hdr ++ '\n' ::
            ((qsort ((bodies.take k).map (fun b => record_of_line (b ++ ['\n'])))).map
              write_record).flatten) ∧
      (qsort ((bodies.take k).map (fun b => record_of_line (b ++ ['\n'])))).Perm
        ((bodies.take k).map (fun b => record_of_line (b ++ ['\n']))) ∧
      ((qsort ((bodies.take k).map (fun b => record_of_line (b ++ ['\n'])))).map
        write_record).length = min k bodies.length := by
  have hn : w.numRecords.toNat = k := by rw [hcount]; simp
  have hpost := csv_post_process_lines w p hdr bodies hname hdisk hnl hnames hread
    (by rw [hcount]; omega) (by omega)
  rw [hn] at hpost
  refine ⟨_, hpost, ?_, qsort_perm _, ?_⟩
  · rw [write_sorted_disk]
    simp
  · rw [List.length_map, (qsort_perm _).length_eq, List.length_map, List.length_take]

/-- C14, at a file of a header line and three lines with the count 2. -/
theorem csv_post_process_first_k_witness :
    (∀ b ∈ ["b,7".toList, "a,5".toList, "c,1".toList], line_readable b) ∧
    ∃ w1, csv_post_process
        (World.closing ['f'] "h,k\nb,7\na,5\nc,1\n".toList 2 [['h'], ['k']]) = .ok w1 ∧
      w1.disk output_processed = some "h,k\na,5\nb,7\n".toList := by
  have hread : ∀ b ∈ ["b,7".toList, "a,5".toList, "c,1".toList], line_readable b := by
    decide
  obtain ⟨w1, h1, h2, -⟩ := csv_post_process_first_k
    (World.closing ['f'] "h,k\nb,7\na,5\nc,1\n".toList 2 [['h'], ['k']]) ['f'] "h,k".toList
    ["b,7".toList, "a,5".toList, "c,1".toList] 2 rfl rfl (by decide) rfl hread rfl (by decide)
  exact ⟨hread, w1, h1, h2.trans (by decide)⟩

/-! ## Whole runs -/

theorem head_ne_comma (t : Text) (h : ',' ∉ t) : t.head? ≠ some ',' := by
  cases t with
  | nil => simp
  | cons c t =>
    intro hc
    simp only [List.head?_cons, Option.some.injEq] at hc
    exact h (by simp [hc])

theorem field_text_head (f : field_t) : (field_text f).head? ≠ some ',' := by
  cases f with
  | FS_STRING ptr =>
    by_cases hc : ',' ∈ ptr
    · simp [field_text, hc]
    · simp only [field_text, hc, if_false]
      exact head_ne_comma ptr hc
  | FS_UINT64 num => exact head_ne_comma _ (field_text_no_comma _ (fun _ h => by cases h))
  | FS_BOOL num => exact head_ne_comma _ (field_text_no_comma _ (fun _ h => by cases h))
  | FS_BINARY ptr => exact head_ne_comma _ (field_text_no_comma _ (fun _ h => by cases h))
  | FS_NULL => simp [field_text]
  | FS_OTHER tag => simp [field_text]

/-- The line of a readable record is a readable line. -/
theorem record_readable_line (fs : List field_t) (h : record_readable fs) :
    line_readable ([','].intercalate (fs.map field_text)) ∧
    row_text fs = [','].intercalate (fs.map field_text) ++ ['\n'] := by
  obtain ⟨hplain, hlen, h2, hfirst⟩ := h
  refine ⟨⟨?_, ?_, ?_, ?_⟩, rfl⟩
  · simpa [row_text] using hlen
  · intro hc
    rcases mem_intercalate _ _ _ hc with h1 | ⟨x, hx, hcx⟩
    · simp at h1
    · obtain ⟨f, hf, rfl⟩ := List.mem_map.mp hx
      exact field_text_no_newline f (hplain.2 f hf) hcx
  · cases fs with
    | nil => simp at h2
    | cons f1 rest =>
      have hne : field_text f1 ≠ [] := hfirst f1 (by simp)
      rw [List.map_cons, intercalate_cons_eq]
      cases ht : field_text f1 with
      | nil => exact absurd ht hne
      | cons c t =>
        have := field_text_head f1
        rw [ht] at this
        simpa using this
  · cases fs with
    | nil => simp at h2
    | cons f1 rest =>
      cases rest with
      | nil => simp at h2
      | cons f2 rest =>
        rw [List.map_cons, List.map_cons, intercalate_cons_cons]
        simp

theorem rows_lines_text (rows : List (List field_t)) :
    (rows.map row_text).flatten
      = lines_text (rows.map (fun fs => [','].intercalate (fs.map field_text))) := by
  simp only [lines_text, List.map_map]
  rfl

set_option maxRecDepth 1000000 in
/-- C13 as stated fails.  With the header row suppressed the first data line
goes to `getline` and the parsing loop finds one line fewer than the count.
A line of more than 1023 characters reaches the parsing loop in two pieces,
of which the second has one token only.  After 2^31 calls the count is
negative and nothing is parsed.  With standard output as destination there is
no file for the sorter to open.  A field name with a newline makes a header
row of two lines, of which the second is parsed in place of a data line. -/
theorem csv_close_parses_fewer :
    (∃ w1 w2,
      csv_init { output_filename := some "results.csv".toList, no_header_row := true } []
        (World.start (fun _ => none)) = .ok w1 ∧
      csv_process [.FS_STRING ['a'], .FS_UINT64 5] w1 = .ok w2 ∧
      w2.numRecords = 1 ∧
      w2.disk "results.csv".toList = some "a,5\n".toList ∧
      getline "a,5\n".toList = some ("a,5\n".toList, []) ∧
      parse_loop 1 [] = .ok [] ∧
      csv_close w2 = .error .undefined) ∧
    (∃ w1 w2 w3 fp,
      csv_init { output_filename := some "results.csv".toList, no_header_row := false }
        ["addr".toList, "n".toList] (World.start (fun _ => none)) = .ok w1 ∧
      csv_process [.FS_STRING ['a'], .FS_STRING (List.replicate 1030 'x')] w1 = .ok w2 ∧
      csv_process [.FS_STRING ['b'], .FS_UINT64 2] w2 = .ok w3 ∧
      w3.numRecords = 2 ∧
      (w3.disk "results.csv".toList).bind getline = some ("addr,n\n".toList, fp) ∧
      parse_loop 2 fp = .error .undefined ∧
      csv_close w3 = .error .undefined) ∧
    (∃ w1 w2,
      csv_init { output_filename := some "results.csv".toList, no_header_row := false }
        ["addr".toList, "n".toList] (World.start (fun _ => none)) = .ok w1 ∧
      csv_process_all (List.replicate (2 ^ 31) [.FS_STRING ['a'], .FS_UINT64 1]) w1 = .ok w2 ∧
      w2.numRecords = -2 ^ 31 ∧
      csv_close w2 = .ok w2) ∧
    (∃ w1 w2,
      csv_init { output_filename := none, no_header_row := false }
        ["addr".toList, "n".toList] (World.start (fun _ => none)) = .ok w1 ∧
      csv_process [.FS_STRING ['a'], .FS_UINT64 5] w1 = .ok w2 ∧
      w2.console = "addr,n\na,5\n".toList ∧
      csv_close w2 = .error .fatal) ∧
    (∃ w1 w2,
      csv_init { output_filename := some "results.csv".toList, no_header_row := false }
        ["x\ny".toList] (World.start (fun _ => none)) = .ok w1 ∧
      csv_process [.FS_STRING ['a'], .FS_UINT64 5] w1 = .ok w2 ∧
      (w2.disk "results.csv".toList).bind getline = some ("x\n".toList, "y\na,5\n".toList) ∧
      parse_loop 1 "y\na,5\n".toList = .error .undefined ∧
      csv_close w2 = .error .undefined) := by
  refine ⟨⟨_, _, rfl, rfl, rfl, rfl, rfl, rfl, rfl⟩,
    ⟨_, _, _, _, rfl, rfl, rfl, rfl, rfl, rfl, rfl⟩, ?_, ⟨_, _, rfl, rfl, rfl, rfl⟩,
    ⟨_, _, rfl, rfl, rfl, rfl, rfl⟩⟩
  · have hk : ∀ fs ∈ List.replicate (2 ^ 31) [field_t.FS_STRING ['a'], field_t.FS_UINT64 1],
        ∀ f ∈ fs, f.known = true := by
      intro fs hfs f hf
      rw [(List.mem_replicate.mp hfs).2] at hf
      simp only [List.mem_cons, List.mem_singleton, List.not_mem_nil, or_false] at hf
      rcases hf with rfl | rfl <;> rfl
    obtain ⟨w1, w2, h1, h2, hcf, hdisk, hc2, -, hnames1, hnames2, hn⟩ :=
      run_state { output_filename := some "results.csv".toList, no_header_row := false }
        ["addr".toList, "n".toList] (fun _ => none) _ "results.csv".toList rfl (by decide) hk
    have hneg : w2.numRecords = -2 ^ 31 := by
      rw [hn, List.length_replicate]
      decide
    refine ⟨w1, w2, h1, h2, hneg, ?_⟩
    have hd : w2.disk "results.csv".toList
        = some ("addr,n".toList ++ '\n' :: (List.map row_text
            (List.replicate (2 ^ 31) [field_t.FS_STRING ['a'], field_t.FS_UINT64 1])).flatten) := by
      rw [hdisk]
      rfl
    have hr : names_readable w2.global_field_names w2.global_field_count.toNat = true := by
      rw [hnames2, hnames1, hc2]
      exact names_readable_stored _
    rw [csv_close, csv_post_process_file w2 _ _ _ hcf hd (by decide), hr, hneg]
    simp

theorem record_plain_of_fields (fs : List field_t) (h : ∀ f ∈ fs, f.plain = true) :
    record_plain fs := by
  refine ⟨fun f hf => ?_, fun f hf ptr hp => ?_⟩
  · have := h f hf
    cases f <;> first | rfl | simp [field_t.plain] at this
  · have := h f hf
    subst hp
    simpa [field_t.plain] using this

/-- C13, amended: with the header row written to a named file, field names
without newline, and k below 2^31 records that each have at least two fields,
a first field whose text is not empty, known types, no newline inside a STRING
and a line shorter than 1024 characters, the count is k, `getline` takes the
header row, the parsing loop makes k records of the k data lines, and
`csv_close` returns. -/
theorem csv_close_parses_all (conf : state_conf) (fields : List Text)
    (disk : Text → Option Text) (rows : List (List field_t)) (name : Text)
    (hconf : conf.output_filename = some name) (hname : name ≠ ['-'])
    (hheader : conf.no_header_row = false) (hfields : ∀ x ∈ fields, '\n' ∉ x)
    (hrows : ∀ fs ∈ rows, record_readable fs) (hlen : rows.length < 2 ^ 31) :
    ∃ w1 w2 w3 fp recs,
      csv_init conf fields (World.start disk) = .ok w1 ∧
      csv_process_all rows w1 = .ok w2 ∧
      w2.numRecords = rows.length ∧
      (w2.csv_filename.bind w2.disk).bind getline
        = some ([','].intercalate fields ++ ['\n'], fp) ∧
      parse_loop w2.numRecords.toNat fp = .ok recs ∧
      recs.length = rows.length ∧
      csv_close w2 = .ok w3 := by
  have hk : ∀ fs ∈ rows, ∀ f ∈ fs, f.known = true := fun fs hfs => (hrows fs hfs).1.1
  obtain ⟨w1, w2, h1, h2, hcf, hdisk, hc2, -, hnames1, hnames2, hn⟩ :=
    run_state conf fields disk rows name hconf hname hk
  have hnum : w2.numRecords = rows.length := by
    rw [hn]; unfold wrap_int; omega
  have htoNat : w2.numRecords.toNat = rows.length := by rw [hnum]; simp
  have hhdr : '\n' ∉ [','].intercalate fields := by
    intro hc
    rcases mem_intercalate _ _ _ hc with h | ⟨x, hx, hcx⟩
    · simp at h
    · exact hfields x hx hcx
  have hread : ∀ b ∈ rows.map (fun fs => [','].intercalate (fs.map field_text)),
      line_readable b := by
    intro b hb
    obtain ⟨fs, hfs, rfl⟩ := List.mem_map.mp hb
    exact (record_readable_line fs (hrows fs hfs)).1
  have hd : w2.disk name = some ([','].intercalate fields ++ '\n' ::
      lines_text (rows.map (fun fs => [','].intercalate (fs.map field_text)))) := by
    rw [hdisk, rows_lines_text]
    simp [header_of, hheader, header_text]
  have hr : names_readable w2.global_field_names w2.global_field_count.toNat = true := by
    rw [hnames2, hnames1, hc2]
    simp only [hheader, Bool.false_eq_true, if_false, Int.toNat_ofNat]
    exact names_readable_stored _
  have hparse := parse_loop_lines _ hread rows.length
  have hpost := csv_post_process_lines w2 name _ _ hcf hd hhdr hr hread (by omega)
    (by rw [htoNat, List.length_map])
  refine ⟨w1, w2, _, lines_text (rows.map (fun fs => [','].intercalate (fs.map field_text))),
    (rows.map (fun fs => [','].intercalate (fs.map field_text))).map
      (fun b => record_of_line (b ++ ['\n'])), h1, h2, hnum, ?_, ?_, ?_, hpost⟩
  · rw [hcf, Option.some_bind, hd, Option.some_bind]
    exact getline_line _ _ hhdr
  · rw [htoNat, hparse, ← List.length_map rows
      (fun fs => [','].intercalate (fs.map field_text)), List.take_length]
  · simp

/-- C13, at the header row addr,n and the two records (a, 5) and (b, 3). -/
theorem csv_close_parses_all_witness :
    (∀ fs ∈ [[field_t.FS_STRING ['a'], field_t.FS_UINT64 5],
        [field_t.FS_STRING ['b'], field_t.FS_UINT64 3]], record_readable fs) ∧
    ∃ w1 w2 w3 fp recs,
      csv_init { output_filename := some "results.csv".toList, no_header_row := false }
        ["addr".toList, "n".toList] (World.start (fun _ => none)) = .ok w1 ∧
      csv_process_all [[field_t.FS_STRING ['a'], field_t.FS_UINT64 5],
        [field_t.FS_STRING ['b'], field_t.FS_UINT64 3]] w1 = .ok w2 ∧
      w2.numRecords = 2 ∧
      (w2.csv_filename.bind w2.disk).bind getline = some ("addr,n\n".toList, fp) ∧
      parse_loop w2.numRecords.toNat fp = .ok recs ∧ recs.length = 2 ∧
      csv_close w2 = .ok w3 := by
  have hrows : ∀ fs ∈ [[field_t.FS_STRING ['a'], field_t.FS_UINT64 5],
      [field_t.FS_STRING ['b'], field_t.FS_UINT64 3]], record_readable fs := by
    intro fs hfs
    simp only [List.mem_cons, List.mem_singleton, List.not_mem_nil, or_false] at hfs
    rcases hfs with rfl | rfl
    · exact ⟨record_plain_of_fields _ (by decide), by decide, by decide, by decide⟩
    · exact ⟨record_plain_of_fields _ (by decide), by decide, by decide, by decide⟩
  exact ⟨hrows, csv_close_parses_all
    { output_filename := some "results.csv".toList, no_header_row := false }
    ["addr".toList, "n".toList] (fun _ => none) _ "results.csv".toList rfl (by decide) rfl
    (by decide) hrows (by decide)⟩

/-- C18: the defect at work.  With the header row suppressed `csv_init`
stores the count 2 for two names and assigns no slot of the name array, and
`csv_close`, right after it, reads the unassigned slots; with the header row
written the same call stores both names. -/
theorem csv_init_names_unassigned :
    (∃ w1,
      csv_init { output_filename := some "results.csv".toList, no_header_row := true }
        ["addr".toList, "n".toList] (World.start (fun _ => none)) = .ok w1 ∧
      w1.global_field_count = 2 ∧
      w1.global_field_names = [none, none] ∧
      names_readable w1.global_field_names w1.global_field_count.toNat = false ∧
      csv_close w1 = .error .undefined) ∧
    (∃ w1,
      csv_init { output_filename := some "results.csv".toList, no_header_row := false }
        ["addr".toList, "n".toList] (World.start (fun _ => none)) = .ok w1 ∧
      w1.global_field_count = 2 ∧
      w1.global_field_names = [some "addr".toList, some "n".toList]) :=
  ⟨⟨_, rfl, rfl, rfl, rfl, rfl⟩, ⟨_, rfl, rfl, rfl⟩⟩

/-! ## The sorter without a header row -/

/-- Where every element of the array is filled, what the unfilled elements
would hold makes no difference. -/
theorem csv_post_process_reading_agrees (unfilled : List Record) (w w1 : World)
    (h : csv_post_process w = .ok w1) : csv_post_process_reading unfilled w = .ok w1 := by
  unfold csv_post_process at h
  unfold csv_post_process_reading
  split at h
  · cases h
  · cases hc : w.csv_filename.bind w.disk with
    | none => simp [hc] at h
    | some content =>
      simp only [hc] at h ⊢
      cases hg : getline content with
      | none => simp [hg] at h
      | some lf =>
        obtain ⟨line, fp⟩ := lf
        simp only [hg] at h ⊢
        by_cases hneg : w.numRecords < 0
        · simp only [hneg, if_true] at h ⊢
          exact h
        · simp only [hneg, if_false] at h ⊢
          cases hp : parse_loop w.numRecords.toNat fp with
          | error e => simp [hp] at h
          | ok records =>
            simp only [hp] at h ⊢
            by_cases hlen : records.length < w.numRecords.toNat
            · simp [hlen] at h
            · simp only [hlen, if_false] at h
              have h1 : ¬ records.length + unfilled.length < w.numRecords.toNat := by omega
              have h2 : w.numRecords.toNat - records.length = 0 := by omega
              simp only [h1, if_false, h2, List.take_zero, List.append_nil]
              exact h

end CsvJa4t
